import Mathlib

/-!
Verification of the mmi-analyzer analysis engine.

The definitions below are a shallow embedding of the JavaScript sources:
  src/analyzers/layering.js, src/analyzers/encapsulation.js,
  src/analyzers/abstraction.js, src/analyzers/cycles.js,
  src/utils/code-cleaner.js, src/utils/file-cache.js,
  src/formatters/combined-formatter.js and the analyze_mmi handler in
  src/server.js.

Files are modelled as a path plus an optional content (`none` models a file
whose read throws, e.g. EACCES).  JavaScript strings are Lean `String`s,
regular-expression scans are explicit character-list scanners implementing
the exact patterns of the source, and JavaScript floating point arithmetic
on scores/percentages is modelled with exact rationals, with
`Number.prototype.toFixed(1)` followed by `parseFloat` modelled as rounding
to the nearest tenth (exact except on exact decimal ties, which the source
regexes and scores never produce in the facts proved here).
-/

namespace MMI

/-- JS regex `\w` character class (ASCII letters, digits, underscore). -/
def isWordChar (c : Char) : Bool := c.isAlphanum || c == '_'

/-- Character class `[\w.]` used by the namespace/using patterns. -/
def isWordDot (c : Char) : Bool := isWordChar c || c == '.'

/-- JS regex `\s` character class (restricted to its ASCII members). -/
def isSpaceChar (c : Char) : Bool :=
  c == ' ' || c == '\t' || c == '\n' || c == '\r' ||
  c == Char.ofNat 11 || c == Char.ofNat 12

/-- Match a literal character sequence at the head of a list, returning the
remainder on success. -/
def dropLit : List Char → List Char → Option (List Char)
  | [], l => some l
  | _ :: _, [] => none
  | c :: cs, x :: xs => if c == x then dropLit cs xs else none

/-- `startsWithList l pat` : does `l` start with `pat`? -/
def startsWithList : List Char → List Char → Bool
  | _, [] => true
  | [], _ :: _ => false
  | x :: xs, c :: cs => x == c && startsWithList xs cs

/-- `containsSub pat l` : does `l` contain `pat` as a contiguous
subsequence?  Models JS `String.prototype.includes`. -/
def containsSub (pat : List Char) : List Char → Bool
  | [] => startsWithList [] pat
  | l@(_ :: rest) => startsWithList l pat || containsSub pat rest

/-- JS `s.includes(pat)`. -/
def strIncludes (s pat : String) : Bool := containsSub pat.data s.data

/-- `s.split(sep)` for a single-character separator (structural
implementation of the JS semantics: `"".split` is `[""]`, a trailing
separator yields a trailing empty piece). -/
def splitOnChar (sep : Char) : List Char → List (List Char)
  | [] => [[]]
  | c :: rest =>
    let r := splitOnChar sep rest
    if c == sep then [] :: r
    else
      match r with
      | [] => [[c]]
      | l :: ls => (c :: l) :: ls

/-- Join pieces with a separator character (inverse of `splitOnChar`). -/
def joinSep (sep : Char) : List (List Char) → List Char
  | [] => []
  | [l] => l
  | l :: ls => l ++ sep :: joinSep sep ls

/-- The lines of a string (JS `code.split('\n')`). -/
def linesOf (s : String) : List String := (splitOnChar '\n' s.data).map String.mk

/-- Re-join lines with `'\n'` (JS `lines.join('\n')`). -/
def joinLines (ls : List String) : String :=
  String.mk (joinSep '\n' (ls.map String.data))

/-- JS `String.prototype.trim` (on its ASCII whitespace members). -/
def trimStr (s : String) : String :=
  String.mk (((s.data.dropWhile isSpaceChar).reverse.dropWhile isSpaceChar).reverse)

/-- JS `s.startsWith(pre)`. -/
def startsWithStr (s pre : String) : Bool := startsWithList s.data pre.data

/-- JS `s.endsWith(suf)`. -/
def endsWithStr (s suf : String) : Bool :=
  startsWithList s.data.reverse suf.data.reverse

/-- Concatenation of a list of strings (JS array join with an empty
separator / repeated `+`). -/
def strConcat (ls : List String) : String :=
  String.mk (ls.map String.data).flatten

/-- JS `s.replace(/\\/g, '/')` used to normalize Windows paths. -/
def normalizeSlashes (s : String) : String :=
  String.mk (s.data.map (fun c => if c == '\\' then '/' else c))

/-- `path.basename` (POSIX separators): the last `/`-separated segment. -/
def basename (p : String) : String :=
  String.mk ((splitOnChar '/' p.data).getLastD p.data)

/-- Remove the first occurrence of `pat` from `l` (JS
`String.prototype.replace` with a plain-string pattern and empty
replacement). -/
def removeFirstOcc (pat : List Char) : List Char → List Char
  | [] => []
  | l@(c :: rest) =>
    if startsWithList l pat then l.drop pat.length
    else c :: removeFirstOcc pat rest

/-- JS `s.replace(pat, '')` for a plain-string `pat` (first occurrence). -/
def replaceFirst (s pat : String) : String :=
  String.mk (removeFirstOcc pat.data s.data)

/-! ### src/utils/code-cleaner.js -/

/-- `removeCommentedLines`: drop every line whose trimmed text starts with
`//`; the remaining lines are re-joined with `\n`. -/
def removeCommentedLines (code : String) : String :=
  joinLines
    ((linesOf code).filter (fun line => !(startsWithStr (trimStr line) "//")))

/-- `cleanCode` is exactly `removeCommentedLines`: only whole commented
lines are removed (`removeInlineComments` exists in the source but is never
called by `cleanCode`). -/
def cleanCode (code : String) : String := removeCommentedLines code

/-! ### Extraction scanners

`extractUsings` scans for the regex `using\s+([\w.]+);` with the `g` flag:
the scan resumes after the end of each match, and advances one character
after a failed match attempt.  `extractNamespace` returns the first match of
`namespace\s+([\w.]+)`.  Both patterns are deterministic (their adjacent
character classes are disjoint), so maximal munch coincides with the JS
regex semantics. -/

/-- Try to match `using\s+([\w.]+);` at the head of `l`; on success return
the captured namespace and the remainder after the match. -/
def matchUsingAt (l : List Char) : Option (String × List Char) :=
  match dropLit "using".data l with
  | none => none
  | some r1 =>
    if (r1.takeWhile isSpaceChar).isEmpty then none
    else
      let r2 := r1.dropWhile isSpaceChar
      let nm := r2.takeWhile isWordDot
      if nm.isEmpty then none
      else
        match r2.dropWhile isWordDot with
        | ';' :: rest => some (String.mk nm, rest)
        | _ => none

/-- Global scan for `using\s+([\w.]+);` (fuel-indexed; fuel is the length of
the remaining input). -/
def scanUsings : Nat → List Char → List String
  | 0, _ => []
  | _ + 1, [] => []
  | fuel + 1, l@(_ :: rest) =>
    match matchUsingAt l with
    | some (ns, r) => ns :: scanUsings fuel r
    | none => scanUsings fuel rest

/-- All matches of `using\s+([\w.]+);` in `content`. -/
def extractUsingsAll (content : String) : List String :=
  scanUsings content.data.length content.data

/-- `extractUsings` of src/analyzers/layering.js: skips namespaces starting
with `System`.  Applied to the RAW file content there. -/
def extractUsingsLayering (content : String) : List String :=
  (extractUsingsAll content).filter (fun ns => !startsWithStr ns "System")

/-- `extractUsings` of src/analyzers/cycles.js: skips namespaces starting
with `System` or `Microsoft`. -/
def extractUsingsCycles (content : String) : List String :=
  (extractUsingsAll content).filter
    (fun ns => !startsWithStr ns "System" && !startsWithStr ns "Microsoft")

/-- Try to match `namespace\s+([\w.]+)` at the head of `l`. -/
def matchNamespaceAt (l : List Char) : Option String :=
  match dropLit "namespace".data l with
  | none => none
  | some r1 =>
    if (r1.takeWhile isSpaceChar).isEmpty then none
    else
      let r2 := r1.dropWhile isSpaceChar
      let nm := r2.takeWhile isWordDot
      if nm.isEmpty then none else some (String.mk nm)

/-- First match of `namespace\s+([\w.]+)` (fuel-indexed scan). -/
def scanNamespace : Nat → List Char → Option String
  | 0, _ => none
  | _ + 1, [] => none
  | fuel + 1, l@(_ :: rest) =>
    match matchNamespaceAt l with
    | some ns => some ns
    | none => scanNamespace fuel rest

/-- `extractNamespace` of src/analyzers/cycles.js: the first namespace
declaration found in the (raw) file content, if any. -/
def extractNamespace (content : String) : Option String :=
  scanNamespace content.data.length content.data

/-! ### File model -/

/-- A source file as seen by an analyzer: its absolute path and its content;
`content = none` models a file whose `fs.readFileSync` throws (deleted or
permission-denied between collection and reading). -/
structure MFile where
  path : String
  content : Option String
deriving DecidableEq

/-- `fs.readFileSync` on one file: returns the content or throws. -/
def readFileSync (f : MFile) : Except String String :=
  match f.content with
  | some c => Except.ok c
  | none => Except.error ("EACCES: " ++ f.path)

/-! ### src/analyzers/layering.js -/

/-- `detectLayer`: maps a (relative) file path to its architectural layer
by directory-name containment, `Domain` checked first. -/
def detectLayer (filePath : String) : Option String :=
  let n := normalizeSlashes filePath
  if strIncludes n "/Domain/" then some "Domain"
  else if strIncludes n "/Application/" then some "Application"
  else if strIncludes n "/Infrastructure/" then some "Infrastructure"
  else if strIncludes n "/Presentation/" then some "Presentation"
  else if strIncludes n "/API/" then some "API"
  else if strIncludes n "/Web/" then some "Web"
  else none

/-- The forbidden-target-layer table of `checkViolations`. -/
def rules (layer : String) : List String :=
  if layer == "Domain" then
    ["Application", "Infrastructure", "Presentation", "API", "Web"]
  else if layer == "Application" then
    ["Infrastructure", "Presentation", "API", "Web"]
  else if layer == "Infrastructure" then
    ["Presentation", "API", "Web"]
  else []

/-- `getSeverity`: severity of a layering violation, a pure function of the
(source layer, forbidden target layer) pair. -/
def getSeverity (fromLayer toLayer : String) : String :=
  if fromLayer == "Domain" && toLayer == "Infrastructure" then "CRITICAL"
  else if fromLayer == "Domain" && toLayer == "Application" then "HIGH"
  else if fromLayer == "Application" && toLayer == "Infrastructure" then "MEDIUM"
  else "LOW"

/-- A layering violation (field `using` of the JS object is `usingNs`
here). -/
structure Violation where
  file : String
  filePath : String
  layer : String
  dependsOn : String
  usingNs : String
  severity : String
deriving DecidableEq

/-- `checkViolations`: one violation per (imported namespace, forbidden
layer) pair such that the namespace text contains the forbidden layer
name. -/
def checkViolations (layer : String) (usings : List String) (filePath : String) :
    List Violation :=
  usings.flatMap (fun u =>
    (rules layer).filterMap (fun fl =>
      if strIncludes u fl then
        some { file := basename filePath, filePath := filePath, layer := layer,
               dependsOn := fl, usingNs := u, severity := getSeverity layer fl }
      else none))

/-- `calculateScore` of layering.js: thresholds on violations/totalFiles. -/
def layeringScore (violationCount totalFiles : Nat) : Nat :=
  if totalFiles = 0 then 5
  else
    let rate : ℚ := (violationCount : ℚ) / (totalFiles : ℚ)
    if violationCount = 0 then 5
    else if rate < 2/100 then 4
    else if rate < 5/100 then 3
    else if rate < 10/100 then 2
    else if rate < 20/100 then 1
    else 0

/-- `getLevel` of layering.js. -/
def getLevelLayering (score : Nat) : String :=
  if score == 5 then "Exzellent"
  else if score == 4 then "Gut"
  else if score == 3 then "Akzeptabel"
  else if score == 2 then "Verbesserungswürdig"
  else if score == 1 then "Schlecht"
  else if score == 0 then "Kritisch"
  else "Unbekannt"

structure LayeringResult where
  projectPath : String
  totalFiles : Nat
  violations : List Violation
  violationCount : Nat
  score : Nat
  level : String
deriving DecidableEq

/-- The per-file loop of `analyzeLayering`.  `fs.readFileSync` has no
try/catch inside the loop, so a failing read propagates out as the
exception (`Except.error`). -/
def layeringFold (projectPath : String) : List MFile → Except String (List Violation)
  | [] => Except.ok []
  | f :: rest =>
    match readFileSync f with
    | Except.error e => Except.error e
    | Except.ok content =>
      let relativePath := replaceFirst f.path projectPath
      let vs :=
        match detectLayer relativePath with
        | none => []
        | some layer =>
          checkViolations layer (extractUsingsLayering content) relativePath
      match layeringFold projectPath rest with
      | Except.error e => Except.error e
      | Except.ok vrest => Except.ok (vs ++ vrest)

/-- `analyzeLayering` (the file list stands for the `findCSharpFiles`
output). -/
def analyzeLayering (projectPath : String) (files : List MFile) :
    Except String LayeringResult :=
  match layeringFold projectPath files with
  | Except.error e => Except.error e
  | Except.ok violations =>
    Except.ok
      { projectPath := projectPath
        totalFiles := files.length
        violations := violations
        violationCount := violations.length
        score := layeringScore violations.length files.length
        level := getLevelLayering (layeringScore violations.length files.length) }

/-! ### src/analyzers/encapsulation.js

`analyzeVisibility` counts matches of the visibility regexes on the raw
file content:
  `/public\s+(class|sealed\s+class)\s+\w+/g`, the `internal` variant,
  `/public\s+interface\s+\w+/g`, `/public\s+record\s+\w+/g` and their
  `internal` variants, plus line-anchored `/^\s*(class|interface|record)\s+\w+/gm`
  for implicitly-internal types.  All the patterns are deterministic, so the
  scanners below implement the exact regex semantics; the line-anchored
  pattern is counted per line (its matches never span a line because `\w+`
  stops at a newline). -/

/-- Match one-or-more whitespace characters (`\s+`), returning the rest. -/
def matchWsPlus (l : List Char) : Option (List Char) :=
  if (l.takeWhile isSpaceChar).isEmpty then none
  else some (l.dropWhile isSpaceChar)

/-- Match one-or-more word characters (`\w+`), returning the rest. -/
def matchWordPlus (l : List Char) : Option (List Char) :=
  if (l.takeWhile isWordChar).isEmpty then none
  else some (l.dropWhile isWordChar)

/-- Match the alternation `(class|sealed\s+class)` (alternatives tried in
order, as the JS engine does). -/
def matchClassAlt (l : List Char) : Option (List Char) :=
  match dropLit "class".data l with
  | some r => some r
  | none =>
    match dropLit "sealed".data l with
    | none => none
    | some r1 =>
      match matchWsPlus r1 with
      | none => none
      | some r2 => dropLit "class".data r2

/-- Match `vis ++ \s+ ++ kind ++ \s+ ++ \w+` at the head of `l`. -/
def matchVisKindAt (vis : List Char) (kind : List Char → Option (List Char))
    (l : List Char) : Option (List Char) := do
  let r1 ← dropLit vis l
  let r2 ← matchWsPlus r1
  let r3 ← kind r2
  let r4 ← matchWsPlus r3
  matchWordPlus r4

/-- Count non-overlapping matches of a pattern, resuming after each match
and advancing one character after each failed attempt (JS `g`-flag scan). -/
def countMatches (m : List Char → Option (List Char)) : Nat → List Char → Nat
  | 0, _ => 0
  | _ + 1, [] => 0
  | fuel + 1, l@(_ :: rest) =>
    match m l with
    | some r => 1 + countMatches m fuel r
    | none => countMatches m fuel rest

/-- Number of matches of `vis\s+kind\s+\w+` in `content`. -/
def countVisKind (vis : String) (kind : List Char → Option (List Char))
    (content : String) : Nat :=
  countMatches (matchVisKindAt vis.data kind) content.data.length content.data

/-- The alternation `(class|interface|record)` of the line-anchored
pattern. -/
def matchKindAlt3 (l : List Char) : Option (List Char) :=
  match dropLit "class".data l with
  | some r => some r
  | none =>
    match dropLit "interface".data l with
    | some r => some r
    | none => dropLit "record".data l

/-- The text matched by `^\s*(class|interface|record)\s+\w+` on a line, if
the line matches. -/
def lineImplicitMatchText (line : String) : Option String :=
  let l := line.data
  let body := l.dropWhile isSpaceChar
  match (do
      let r ← matchKindAlt3 body
      let r2 ← matchWsPlus r
      matchWordPlus r2) with
  | none => none
  | some rest => some (String.mk (l.take (l.length - rest.length)))

/-- Count of line-anchored implicit type declarations whose matched text
contains `sub` (the source filters the match texts with `includes`). -/
def countImplicit (sub : String) (content : String) : Nat :=
  (((linesOf content).filterMap lineImplicitMatchText).filter
    (fun t => strIncludes t sub)).length

/-- The mutable `stats` object of `analyzeEncapsulation`. -/
structure VisStats where
  publicClasses : Nat
  internalClasses : Nat
  publicInterfaces : Nat
  internalInterfaces : Nat
  publicRecords : Nat
  internalRecords : Nat
deriving DecidableEq

def emptyStats : VisStats := ⟨0, 0, 0, 0, 0, 0⟩

/-- `analyzeVisibility`: the per-file increments to `stats`. -/
def analyzeVisibility (content : String) (s : VisStats) : VisStats :=
  { publicClasses := s.publicClasses + countVisKind "public" matchClassAlt content
    internalClasses := s.internalClasses + countVisKind "internal" matchClassAlt content
      + countImplicit "class" content
    publicInterfaces := s.publicInterfaces
      + countVisKind "public" (dropLit "interface".data) content
    internalInterfaces := s.internalInterfaces
      + countVisKind "internal" (dropLit "interface".data) content
      + countImplicit "interface" content
    publicRecords := s.publicRecords
      + countVisKind "public" (dropLit "record".data) content
    internalRecords := s.internalRecords
      + countVisKind "internal" (dropLit "record".data) content
      + countImplicit "record" content }

/-- An over-exposed type found by `checkOverExposure` (the fixed
`suggestion` message is display-only and omitted). -/
structure ExposedType where
  file : String
  filePath : String
  typeKind : String
  name : String
deriving DecidableEq

/-- Match `public\s+(class|interface|record)\s+(\w+)` at the head of `l`,
returning kind, captured name, and the rest after the match. -/
def matchPublicTypeAt (l : List Char) : Option (String × String × List Char) := do
  let r1 ← dropLit "public".data l
  let r2 ← matchWsPlus r1
  let (kind, r3) ←
    match dropLit "class".data r2 with
    | some r => some ("class", r)
    | none =>
      match dropLit "interface".data r2 with
      | some r => some ("interface", r)
      | none =>
        match dropLit "record".data r2 with
        | some r => some ("record", r)
        | none => none
  let r4 ← matchWsPlus r3
  let nm := r4.takeWhile isWordChar
  if nm.isEmpty then none
  else some (kind, String.mk nm, r4.dropWhile isWordChar)

/-- Global scan for the public-type pattern of `checkOverExposure`. -/
def scanPublicTypes : Nat → List Char → List (String × String)
  | 0, _ => []
  | _ + 1, [] => []
  | fuel + 1, l@(_ :: rest) =>
    match matchPublicTypeAt l with
    | some (kind, nm, r) => (kind, nm) :: scanPublicTypes fuel r
    | none => scanPublicTypes fuel rest

/-- The `shouldBePublic` exemption test of `checkOverExposure`. -/
def shouldBePublic (typeName filePath : String) : Bool :=
  strIncludes filePath "/API/" || strIncludes filePath "/Web/" ||
  strIncludes filePath "/Presentation/" ||
  endsWithStr typeName "Controller" ||
  endsWithStr typeName "Dto" || endsWithStr typeName "Request" ||
  endsWithStr typeName "Response" || endsWithStr typeName "Contract" ||
  strIncludes filePath "/Contracts/" || strIncludes filePath "/DTOs/"

/-- `checkOverExposure`: public types that match no exemption. -/
def checkOverExposure (content fileName filePath : String) : List ExposedType :=
  (scanPublicTypes content.data.length content.data).filterMap
    (fun kn =>
      if shouldBePublic kn.2 filePath then none
      else some { file := fileName, filePath := filePath,
                  typeKind := kn.1, name := kn.2 })

/-- `toFixed(1)` followed by `parseFloat`: round to the nearest tenth
(exact on non-ties; JS decides exact decimal ties by the binary double
representation, which no fact below depends on). -/
def roundTo1 (q : ℚ) : ℚ := (round (q * 10) : ℤ) / 10

/-- `calculateScore` of encapsulation.js: thresholds on the (rounded)
public percentage. -/
def encapCalculateScore (publicPercentage : ℚ) : Nat :=
  if publicPercentage < 20 then 5
  else if publicPercentage < 30 then 4
  else if publicPercentage < 40 then 3
  else if publicPercentage < 50 then 2
  else if publicPercentage < 60 then 1
  else 0

/-- `getLevel` of encapsulation.js (its level-4..0 strings are byte-for-byte
those of the source, including its mojibake). -/
def getLevelEncaps (score : Nat) : String :=
  if score == 5 then "Exzellent"
  else if score == 4 then "Gut"
  else if score == 3 then "Akzeptabel"
  else if score == 2 then "VerbesserungswÃ¼rdig"
  else if score == 1 then "Schlecht"
  else if score == 0 then "Kritisch"
  else "Unbekannt"

structure EncapsResult where
  projectPath : String
  totalFiles : Nat
  totalTypes : Nat
  stats : VisStats
  publicTypes : Nat
  publicPercentage : ℚ
  overExposed : List ExposedType
  overExposedCount : Nat
  score : Nat
  level : String
deriving DecidableEq

/-- The per-file loop of `analyzeEncapsulation` (unguarded
`fs.readFileSync`, so a failing read aborts the analyzer). -/
def encapsFold (projectPath : String) :
    List MFile → Except String (VisStats × List ExposedType)
  | [] => Except.ok (emptyStats, [])
  | f :: rest =>
    match readFileSync f with
    | Except.error e => Except.error e
    | Except.ok content =>
      let relativePath := replaceFirst f.path projectPath
      let fileName := basename f.path
      match encapsFold projectPath rest with
      | Except.error e => Except.error e
      | Except.ok (srest, erest) =>
        Except.ok (analyzeVisibility content srest,
          checkOverExposure content fileName relativePath ++ erest)

/-- `publicPercentage` as computed by the source:
`totalTypes > 0 ? ((publicTypes / totalTypes) * 100).toFixed(1) : 0`
parsed back to a number. -/
def publicPercentageOf (publicTypes totalTypes : Nat) : ℚ :=
  if 0 < totalTypes then
    roundTo1 ((publicTypes : ℚ) / (totalTypes : ℚ) * 100)
  else 0

/-- `analyzeEncapsulation`. -/
def analyzeEncapsulation (projectPath : String) (files : List MFile) :
    Except String EncapsResult :=
  match encapsFold projectPath files with
  | Except.error e => Except.error e
  | Except.ok (stats, overExposed) =>
    let totalTypes := stats.publicClasses + stats.internalClasses +
      stats.publicInterfaces + stats.internalInterfaces +
      stats.publicRecords + stats.internalRecords
    let publicTypes := stats.publicClasses + stats.publicInterfaces +
      stats.publicRecords
    let publicPercentage := publicPercentageOf publicTypes totalTypes
    let score := encapCalculateScore publicPercentage
    Except.ok
      { projectPath := projectPath
        totalFiles := files.length
        totalTypes := totalTypes
        stats := stats
        publicTypes := publicTypes
        publicPercentage := publicPercentage
        overExposed := overExposed
        overExposedCount := overExposed.length
        score := score
        level := getLevelEncaps score }

/-! ### src/utils/file-cache.js

The cache maps absolute file paths to MD5 content hashes.  MD5 is modelled
by the injective (collision-free) tagging `"h" ++ content`; the source only
ever compares hashes for equality, and its `!cachedHash` falsiness test can
only fire on a missing key since an MD5 hex digest is never the empty
string (the tag keeps the model's hashes nonempty too). -/

/-- A cache state: an association list path ↦ hash. -/
abbrev Cache := List (String × String)

def cacheLookup (cache : Cache) (p : String) : Option String :=
  match cache.find? (fun e => e.1 == p) with
  | some e => some e.2
  | none => none

def cacheInsert (cache : Cache) (p h : String) : Cache :=
  match cache with
  | [] => [(p, h)]
  | e :: rest => if e.1 == p then (p, h) :: rest else e :: cacheInsert rest p h

/-- The modelled MD5 of a file content. -/
def md5Model (content : String) : String := "h" ++ content

/-- `hasFileChanged`: true (and cache updated) if the key is absent or the
stored hash differs from the current content hash. -/
def hasFileChanged (cache : Cache) (p content : String) : Bool × Cache :=
  let currentHash := md5Model content
  match cacheLookup cache p with
  | some h =>
    if h == currentHash then (false, cache)
    else (true, cacheInsert cache p currentHash)
  | none => (true, cacheInsert cache p currentHash)

/-! ### src/analyzers/abstraction.js -/

/-- `detectLayer` of abstraction.js (same containment chain, default
`Unknown`). -/
def detectLayerU (filePath : String) : String :=
  match detectLayer filePath with
  | some l => l
  | none => "Unknown"

/-- `startsWithListCI`: case-insensitive prefix test (JS `i` flag). -/
def startsWithListCI : List Char → List Char → Bool
  | _, [] => true
  | [], _ :: _ => false
  | x :: xs, c :: cs => x.toLower == c.toLower && startsWithListCI xs cs

/-- One step of a `\b token \b` scan: does `tok` occur at the head of `l`
with a word boundary on each side?  `prev` is the character before `l`
(none at the start of the content); `ci` selects case-insensitive
comparison. -/
def tokenAtHead (ci : Bool) (prev : Option Char) (tok l : List Char) : Bool :=
  (match prev with
   | none => true
   | some c => !isWordChar c) &&
  (if ci then startsWithListCI l tok else startsWithList l tok) &&
  (match l.drop tok.length with
   | [] => true
   | c :: _ => !isWordChar c)

/-- Does any of `toks` occur in the remaining input with word boundaries?
(`.test()` of an alternation wrapped in `\b(...)\b`.) -/
def scanTokens (ci : Bool) (toks : List (List Char)) :
    Nat → Option Char → List Char → Bool
  | 0, _, _ => false
  | _ + 1, _, [] => false
  | fuel + 1, prev, l@(c :: rest) =>
    toks.any (fun tok => tokenAtHead ci prev tok l) ||
    scanTokens ci toks fuel (some c) rest

/-- `.test()` of `\b(tok1|tok2|...)\b` (optionally with the `i` flag) on
`content`.  The boundary `\b` of the source patterns always sits next to a
word character, so it is exactly a not-a-word-character test on the
neighbour. -/
def testTokens (ci : Bool) (toks : List String) (content : String) : Bool :=
  scanTokens ci (toks.map String.data) content.data.length none content.data

/-- Count non-overlapping `\b(tok1|...)\b` matches (the `match(...).length`
of the logging check); alternatives are tried in order and the scan resumes
after each match. -/
def countTokensFrom (toks : List (List Char)) :
    Nat → Option Char → List Char → Nat
  | 0, _, _ => 0
  | _ + 1, _, [] => 0
  | fuel + 1, prev, l@(c :: rest) =>
    match toks.find? (fun tok => tokenAtHead false prev tok l) with
    | some tok =>
      1 + countTokensFrom toks fuel (some (tok.getLastD c)) (l.drop tok.length)
    | none => countTokensFrom toks fuel (some c) rest

def countTokens (toks : List String) (content : String) : Nat :=
  countTokensFrom (toks.map String.data) content.data.length none content.data

/-- An abstraction finding (the `description` and `pattern` fields of the
JS object are fixed display strings per issue kind and are omitted). -/
structure AbsIssue where
  file : String
  layer : String
  issue : String
  severity : String
deriving DecidableEq

/-- `detectMixedAbstractions`: the six pattern checks, run only when the
business-logic vocabulary test passes, in source order. -/
def detectMixedAbstractions (content fileName filePath : String) : List AbsIssue :=
  let layer := detectLayerU filePath
  let hasBusinessLogic :=
    testTokens true ["Order", "Product", "Customer", "Invoice", "Payment",
      "Account", "User"] content ||
    testTokens true ["Calculate", "Process", "Validate", "Create", "Update",
      "Delete"] content
  if !hasBusinessLogic then []
  else
    (if testTokens false ["SqlConnection", "SqlCommand", "SqlDataReader",
        "ExecuteReader", "ExecuteNonQuery", "ExecuteScalar"] content then
      [{ file := fileName, layer := layer, issue := "SQL_MIXING",
         severity := if layer == "Domain" || layer == "Application" then
           "CRITICAL" else "MEDIUM" }]
    else []) ++
    (if layer == "Domain" &&
        testTokens false ["DbContext", "DbSet", "Include", "ThenInclude",
          "AsNoTracking"] content then
      [{ file := fileName, layer := layer, issue := "EF_IN_DOMAIN",
         severity := "CRITICAL" }]
    else []) ++
    (if testTokens false ["HttpClient", "HttpRequest", "HttpResponse",
        "RestClient", "WebClient"] content then
      [{ file := fileName, layer := layer, issue := "HTTP_MIXING",
         severity := if layer == "Domain" || layer == "Application" then
           "CRITICAL" else "LOW" }]
    else []) ++
    (if testTokens false ["File.Read", "File.Write", "StreamReader",
        "StreamWriter", "FileStream"] content then
      [{ file := fileName, layer := layer, issue := "FILE_IO_MIXING",
         severity := if layer == "Domain" then "HIGH" else "MEDIUM" }]
    else []) ++
    (if layer == "Domain" &&
        testTokens false ["JsonSerializer", "XmlSerializer", "JsonConvert"]
          content then
      [{ file := fileName, layer := layer, issue := "SERIALIZATION_IN_DOMAIN",
         severity := "HIGH" }]
    else []) ++
    (if 5 < countTokens ["ILogger", "_logger.Log", "Console.WriteLine"] content
        && layer == "Domain" then
      [{ file := fileName, layer := layer, issue := "EXCESSIVE_LOGGING",
         severity := "LOW" }]
    else [])

/-- `calculateScore` of abstraction.js. -/
def abstractionScore (issueCount totalFiles : Nat) : Nat :=
  if totalFiles = 0 then 5
  else
    let rate : ℚ := (issueCount : ℚ) / (totalFiles : ℚ)
    if issueCount = 0 then 5
    else if rate < 5/100 then 4
    else if rate < 10/100 then 3
    else if rate < 20/100 then 2
    else if rate < 30/100 then 1
    else 0

/-- `getLevel` of abstraction.js (level-2 string byte-for-byte from the
source, including its mojibake). -/
def getLevelAbstraction (score : Nat) : String :=
  if score == 5 then "Exzellent"
  else if score == 4 then "Gut"
  else if score == 3 then "Akzeptabel"
  else if score == 2 then "Verbesserungsw√ºrdig"
  else if score == 1 then "Schlecht"
  else if score == 0 then "Kritisch"
  else "Unbekannt"

structure AbsResult where
  projectPath : String
  totalFiles : Nat
  filesWithIssues : Nat
  mixedAbstractions : List AbsIssue
  issueCount : Nat
  score : Nat
  level : String
deriving DecidableEq

/-- Append the elements of `xs` not already present, in order (the
insertion loop of a JS `Set`). -/
def addNew (s : List String) : List String → List String
  | [] => s
  | x :: xs => addNew (if s.contains x then s else s ++ [x]) xs

/-- The distinct elements of a list in first-occurrence order
(`new Set(xs)`). -/
def distinctList (xs : List String) : List String := addNew [] xs

/-- The per-file loop of `analyzeAbstraction`: when `useCache` is set,
`hasFileChanged` (which itself reads the file to hash it) decides whether
the file is skipped; the file is then read again and analyzed on the
cleaned content.  An unguarded read failure aborts the analyzer. -/
def abstractionFold (projectPath : String) (useCache : Bool) :
    List MFile → Cache → Except String (List AbsIssue × Cache)
  | [], cache => Except.ok ([], cache)
  | f :: rest, cache =>
    match readFileSync f with
    | Except.error e => Except.error e
    | Except.ok rawContent =>
      let skipStep : Bool × Cache :=
        if useCache then
          let (changed, cache') := hasFileChanged cache f.path rawContent
          (!changed, cache')
        else (false, cache)
      if skipStep.1 then abstractionFold projectPath useCache rest skipStep.2
      else
        let relativePath := replaceFirst f.path projectPath
        let content := cleanCode rawContent
        let fileName := basename f.path
        let issues := detectMixedAbstractions content fileName relativePath
        match abstractionFold projectPath useCache rest skipStep.2 with
        | Except.error e => Except.error e
        | Except.ok (irest, cacheEnd) => Except.ok (issues ++ irest, cacheEnd)

/-- `analyzeAbstraction`, with the module-level cache made explicit (it is
threaded in and returned alongside the result). -/
def analyzeAbstraction (projectPath : String) (files : List MFile)
    (useCache : Bool) (cache : Cache) : Except String (AbsResult × Cache) :=
  match abstractionFold projectPath useCache files cache with
  | Except.error e => Except.error e
  | Except.ok (mixedAbstractions, cache') =>
    Except.ok
      ({ projectPath := projectPath
         totalFiles := files.length
         filesWithIssues := (distinctList (mixedAbstractions.map (fun i => i.file))).length
         mixedAbstractions := mixedAbstractions
         issueCount := mixedAbstractions.length
         score := abstractionScore mixedAbstractions.length files.length
         level := getLevelAbstraction
           (abstractionScore mixedAbstractions.length files.length) }, cache')

/-! ### src/analyzers/cycles.js

The dependency graph is a `graphlib.Graph({directed: true})`: `setNode`
registers a node, `setEdge` registers a directed edge and silently creates
its endpoints as nodes.  `graphlib.alg.findCycles` returns the strongly
connected components (Tarjan) that have more than one node or consist of a
single node with a self-loop; it is modelled by mutual-reachability classes
collected in node order, which yields the same components as sets. -/

structure Graph where
  nodes : List String
  edges : List (String × String)
deriving DecidableEq

def Graph.empty : Graph := ⟨[], []⟩

/-- `graph.setNode(n)`. -/
def setNode (g : Graph) (n : String) : Graph :=
  if g.nodes.contains n then g else { g with nodes := g.nodes ++ [n] }

/-- `graph.setEdge(a, b)`: creates the endpoints as nodes if absent. -/
def setEdge (g : Graph) (a b : String) : Graph :=
  let g := setNode (setNode g a) b
  if g.edges.contains (a, b) then g else { g with edges := g.edges ++ [(a, b)] }

/-- The namespace → set-of-file-names multimap of `buildCompleteGraph`
(pass 1); sets are duplicate-free lists in insertion order. -/
abbrev NsMap := List (String × List String)

def nsMapLookup (m : NsMap) (ns : String) : Option (List String) :=
  match m.find? (fun e => e.1 == ns) with
  | some e => some e.2
  | none => none

def nsMapAdd (m : NsMap) (ns fileName : String) : NsMap :=
  match m with
  | [] => [(ns, [fileName])]
  | e :: rest =>
    if e.1 == ns then
      (e.1, if e.2.contains fileName then e.2 else e.2 ++ [fileName]) :: rest
    else e :: nsMapAdd rest ns fileName

/-- Pass 1 of `buildCompleteGraph`: register every file that declares a
namespace, both in the multimap and as a graph node. -/
def buildPass1 : List MFile → NsMap → Graph →
    Except String (NsMap × Graph)
  | [], m, g => Except.ok (m, g)
  | f :: rest, m, g =>
    match readFileSync f with
    | Except.error e => Except.error e
    | Except.ok content =>
      let fileName := basename f.path
      match extractNamespace content with
      | some ns => buildPass1 rest (nsMapAdd m ns fileName) (setNode g fileName)
      | none => buildPass1 rest m g

/-- The inner loop of pass 2 for one file: add an edge to every owner of
every resolvable imported namespace (skipping the file's own namespace and
self-edges). -/
def addEdgesForFile (m : NsMap) (fileName : String) (ownNamespace : Option String)
    (usings : List String) (g : Graph) : Graph :=
  usings.foldl (fun g u =>
    if ownNamespace == some u then g
    else
      match nsMapLookup m u with
      | none => g
      | some targets =>
        targets.foldl (fun g t => if fileName == t then g else setEdge g fileName t) g) g

/-- Pass 2 of `buildCompleteGraph`: edges from the cleaned content's using
statements of every file (whether or not it declared a namespace). -/
def buildPass2 (m : NsMap) : List MFile → Graph → Except String Graph
  | [], g => Except.ok g
  | f :: rest, g =>
    match readFileSync f with
    | Except.error e => Except.error e
    | Except.ok content =>
      let fileName := basename f.path
      let cleanedContent := cleanCode content
      let ownNamespace := extractNamespace content
      let usings := extractUsingsCycles cleanedContent
      buildPass2 m rest (addEdgesForFile m fileName ownNamespace usings g)

/-- `buildCompleteGraph`. -/
def buildCompleteGraph (files : List MFile) : Except String Graph :=
  match buildPass1 files [] Graph.empty with
  | Except.error e => Except.error e
  | Except.ok (m, g) => buildPass2 m files g

/-- Successors of `n` in the edge list. -/
def succsOf (edges : List (String × String)) (n : String) : List String :=
  (edges.filter (fun e => e.1 == n)).map (fun e => e.2)

/-- One saturation step of the reachable set. -/
def stepClose (edges : List (String × String)) (s : List String) : List String :=
  addNew s (s.flatMap (succsOf edges))

/-- Fuel-bounded saturation to the set of reachable nodes. -/
def iterClose (edges : List (String × String)) : Nat → List String → List String
  | 0, s => s
  | k + 1, s =>
    let s' := stepClose edges s
    if s'.length = s.length then s else iterClose edges k s'

/-- Nodes reachable from `n` along `edges` (fuel `edges.length` suffices:
every saturation step adds at least one edge target). -/
def reachSet (edges : List (String × String)) (n : String) : List String :=
  iterClose edges edges.length [n]

/-- Is `b` reachable from `a`? -/
def reachB (edges : List (String × String)) (a b : String) : Bool :=
  (reachSet edges a).contains b

/-- Mutual reachability. -/
def mutualB (edges : List (String × String)) (a b : String) : Bool :=
  reachB edges a b && reachB edges b a

/-- The strongly connected component of `n`, listed in node order. -/
def sccOf (g : Graph) (n : String) : List String :=
  g.nodes.filter (fun m => mutualB g.edges n m)

/-- All strongly connected components, collected in node order. -/
def sccsAux (g : Graph) : List String → List String → List (List String)
  | [], _ => []
  | n :: rest, seen =>
    if seen.contains n then sccsAux g rest seen
    else sccOf g n :: sccsAux g rest (seen ++ sccOf g n)

def sccsG (g : Graph) : List (List String) := sccsAux g g.nodes []

/-- `graphlib.alg.findCycles`: the SCCs with more than one node, plus
singleton SCCs carrying a self-loop. -/
def findCyclesG (g : Graph) : List (List String) :=
  (sccsG g).filter (fun c =>
    match c with
    | [v] => g.edges.contains (v, v)
    | c => decide (1 < c.length))

/-- `getCycleSeverity`: CRITICAL when a member file's path contains
`/Domain/`, otherwise by cycle length. -/
def getCycleSeverity (cycle : List String) (files : List MFile) : String :=
  let hasDomain := cycle.any (fun fileName =>
    match files.find? (fun f => basename f.path == fileName) with
    | none => false
    | some f => strIncludes (normalizeSlashes f.path) "/Domain/")
  if hasDomain then "CRITICAL"
  else if cycle.length ≤ 2 then "HIGH"
  else if cycle.length ≤ 4 then "MEDIUM"
  else "LOW"

/-- `getLayersInCycle`: distinct layers of the member files, in member
order (the `detectLayer` chain inlined in the source). -/
def getLayersInCycle (cycle : List String) (files : List MFile) : List String :=
  distinctList (cycle.filterMap (fun fileName =>
    match files.find? (fun f => basename f.path == fileName) with
    | none => none
    | some f => detectLayer f.path))

/-- A reported cycle (`description` is a fixed display string and
omitted). -/
structure CycleInfo where
  id : Nat
  path : List String
  length : Nat
  severity : String
  layers : List String
deriving DecidableEq

/-- `analyzeCycleDetails`. -/
def analyzeCycleDetails (cycles : List (List String)) (files : List MFile) :
    List CycleInfo :=
  cycles.enum.map (fun ic =>
    { id := ic.1 + 1
      path := ic.2
      length := ic.2.length
      severity := getCycleSeverity ic.2 files
      layers := getLayersInCycle ic.2 files })

/-- `getUniqueFilesInCycles` (a JS `Set` filled cycle by cycle). -/
def getUniqueFilesInCycles (cycles : List (List String)) : List String :=
  distinctList cycles.flatten

/-- `calculateScore` of cycles.js. -/
def cyclesScore (cycleCount totalFiles : Nat) : Nat :=
  if totalFiles = 0 then 5
  else
    let rate : ℚ := (cycleCount : ℚ) / (totalFiles : ℚ)
    if cycleCount = 0 then 5
    else if rate < 1/100 then 4
    else if rate < 3/100 then 3
    else if rate < 5/100 then 2
    else if rate < 10/100 then 1
    else 0

structure CycleResult where
  projectPath : String
  totalFiles : Nat
  cycles : List CycleInfo
  cycleCount : Nat
  filesInCycles : List String
  filesInCyclesCount : Nat
  score : Nat
  level : String
deriving DecidableEq

/-- `analyzeCycles`. -/
def analyzeCycles (projectPath : String) (files : List MFile) :
    Except String CycleResult :=
  match buildCompleteGraph files with
  | Except.error e => Except.error e
  | Except.ok graph =>
    let cycles := findCyclesG graph
    Except.ok
      { projectPath := projectPath
        totalFiles := files.length
        cycles := analyzeCycleDetails cycles files
        cycleCount := cycles.length
        filesInCycles := getUniqueFilesInCycles cycles
        filesInCyclesCount := (getUniqueFilesInCycles cycles).length
        score := cyclesScore cycles.length files.length
        level := getLevelLayering (cyclesScore cycles.length files.length) }

/-! ### The complete analysis (`analyze_mmi`)

The `analyze_mmi` tool is handled by `handleMMIAnalysis` in
src/tools/analysis-tools.js: it runs the three analyzers layering,
encapsulation and abstraction and then calls the FIVE-parameter
`formatCombinedReport(layering, encapsulation, abstraction, cycles, mode)`
of src/formatters/combined-formatter.js with only FOUR arguments
(analysis-tools.js line 108), so the `cycles` parameter is bound to the
`mode` string and `mode` falls back to its default.  Property access on a
string yields `undefined`, so the composite
`((layering.score + encapsulation.score + abstraction.score +
cycles.score) / 4).toFixed(1)` (combined-formatter.js line 15) evaluates
to the string "NaN", `parseFloat` turns it back into NaN, and every
comparison inside `getOverallLevel` fails on NaN, so the overall level is
always "Kritisch".  JS numbers are modelled as `Option ℚ` with `none` for
NaN; the `undefined` summand is also mapped to `none`, since the first
operation applied to it is the arithmetic that turns it into NaN. -/

/-- `getOverallLevel` of combined-formatter.js on an ordinary (non-NaN)
number. -/
def getOverallLevel (score : ℚ) : String :=
  if 45/10 ≤ score then "Exzellent"
  else if 35/10 ≤ score then "Gut"
  else if 25/10 ≤ score then "Akzeptabel"
  else if 15/10 ≤ score then "Verbesserungswürdig"
  else if 5/10 ≤ score then "Schlecht"
  else "Kritisch"

/-- A JavaScript number that may be NaN: `some q` is the finite value `q`,
`none` is NaN. -/
abbrev JNum := Option ℚ

/-- JS `+`: a NaN (or `undefined`) operand poisons the sum. -/
def jadd : JNum → JNum → JNum
  | some a, some b => some (a + b)
  | _, _ => none

/-- JS `/ 4` (the divisor is the literal 4, so only NaN propagates). -/
def jdiv4 : JNum → JNum
  | some a => some (a / 4)
  | none => none

/-- `.toFixed(1)` followed by `parseFloat` on a possibly-NaN number: a
finite value rounds to one decimal; NaN stringifies to "NaN", which parses
back to NaN. -/
def jroundTo1 : JNum → JNum
  | some a => some (roundTo1 a)
  | none => none

/-- JS `score >= c`: false when `score` is NaN. -/
def jge (score : JNum) (c : ℚ) : Bool :=
  match score with
  | some a => decide (c ≤ a)
  | none => false

/-- `getOverallLevel` of combined-formatter.js on a possibly-NaN score:
NaN fails every `>=` test and falls through to "Kritisch". -/
def getOverallLevelJ (score : JNum) : String :=
  if jge score (45/10) then "Exzellent"
  else if jge score (35/10) then "Gut"
  else if jge score (25/10) then "Akzeptabel"
  else if jge score (15/10) then "Verbesserungswürdig"
  else if jge score (5/10) then "Schlecht"
  else "Kritisch"

/-- The value bound to the `cycles` parameter of `formatCombinedReport`:
either a genuine cycle-analysis result, or — as in the actual
`handleMMIAnalysis` call, which supplies four arguments for five
parameters — the `mode` string. -/
inductive CyclesArg where
  | result (c : CycleResult)
  | str (s : String)
deriving DecidableEq

/-- `cycles.score` as a JS number: property access on a string yields
`undefined`, modelled as `none` (the next operation on it is the
arithmetic that turns it into NaN). -/
def CyclesArg.scoreJ : CyclesArg → JNum
  | CyclesArg.result c => some (c.score : ℚ)
  | CyclesArg.str _ => none

/-- The overall score and level computed by `formatCombinedReport`
(combined-formatter.js lines 15 and 17): the sum of the three analyzer
scores and `cycles.score`, divided by 4, `toFixed(1)`-rounded and parsed
back, then levelled. -/
def formatCombinedOverall (l e a : Nat) (cycles : CyclesArg) :
    JNum × String :=
  let overallScore :=
    jroundTo1 (jdiv4 (jadd (jadd (jadd (some (l : ℚ)) (some (e : ℚ)))
      (some (a : ℚ))) (CyclesArg.scoreJ cycles)))
  (overallScore, getOverallLevelJ overallScore)

structure MMIReport where
  layering : LayeringResult
  encapsulation : EncapsResult
  abstraction : AbsResult
  overallScore : JNum
  overallLevel : String
deriving DecidableEq

/-- `handleMMIAnalysis` of src/tools/analysis-tools.js (the `analyze_mmi`
tool): runs the three analyzers (layering and encapsulation ignore the
extra `useCache` argument they are passed; abstraction uses it) and calls
`formatCombinedReport` with the three results and the mode string — four
arguments for five parameters, so the mode string lands in the `cycles`
slot. -/
def handleMMIAnalysis (projectPath : String) (files : List MFile)
    (mode : String) (useCache : Bool) (cache : Cache) :
    Except String MMIReport :=
  match analyzeLayering projectPath files with
  | Except.error e => Except.error e
  | Except.ok l =>
    match analyzeEncapsulation projectPath files with
    | Except.error e => Except.error e
    | Except.ok enc =>
      match analyzeAbstraction projectPath files useCache cache with
      | Except.error e => Except.error e
      | Except.ok ab =>
        let ov := formatCombinedOverall l.score enc.score ab.1.score
          (CyclesArg.str mode)
        Except.ok
          { layering := l
            encapsulation := enc
            abstraction := ab.1
            overallScore := ov.1
            overallLevel := ov.2 }

/-- The `/Domain/` containment test used by `getCycleSeverity` (and, as the
first link of `detectLayer`, equivalent to classifying the path into the
Domain layer). -/
def isDomainPath (p : String) : Bool :=
  strIncludes (normalizeSlashes p) "/Domain/"

/-! ### Spec-side comparison definitions (refinement claims)

These two definitions follow the specification's words, for comparison with
the source-derived definitions above; they are not part of the embedding of
the code. -/

/-- Spec wording for C8: score thresholds applied to the EXACT
`publicCount / totalCount × 100` (0 when `totalCount = 0`), with no
rounding. -/
def specEncapsulationScore (publicCount totalCount : Nat) : Nat :=
  let p : ℚ :=
    if totalCount = 0 then 0 else (publicCount : ℚ) / (totalCount : ℚ) * 100
  if p < 20 then 5
  else if p < 30 then 4
  else if p < 40 then 3
  else if p < 50 then 2
  else if p < 60 then 1
  else 0

/-- Spec wording for C1: the composite is the unweighted arithmetic mean of
the FOUR dimension scores. -/
def specCompositeOfFour (layering encapsulation abstraction cycles : Nat) : ℚ :=
  ((layering : ℚ) + (encapsulation : ℚ) + (abstraction : ℚ) + (cycles : ℚ)) / 4

/-! ### Concrete example inputs used by counterexamples and witnesses -/

/-- A Domain-layer file whose only `using` occurrence sits inside a
whole-line comment. -/
def ex2File : MFile :=
  ⟨"/proj/src/Domain/Order.cs",
   some "namespace Shop.Domain;\n// using Shop.Infrastructure.Db;\nclass Order"⟩

/-- The raw content of `ex2File`. -/
def ex2Raw : String :=
  "namespace Shop.Domain;\n// using Shop.Infrastructure.Db;\nclass Order"

/-- A file whose only public type declaration sits inside a whole-line
comment. -/
def ex2bFile : MFile :=
  ⟨"/proj/src/Core/Hidden.cs", some "namespace Shop.Core;\n// public class Hidden"⟩

/-- A file whose read fails (deleted / permission-denied mid-scan). -/
def ex3File : MFile := ⟨"/p/Domain/A.cs", none⟩

/-- A readable companion for the mid-scan-failure example. -/
def ex3Good : MFile := ⟨"/p/Domain/B.cs", some "namespace S.Domain;"⟩

/-- 62 public and 145 internal class declarations: 62/207 of the types are
public, i.e. exactly 29.951690…%, which `toFixed(1)` rounds to 30.0. -/
def ex8Files : List MFile :=
  List.replicate 62 ⟨"/p/Core/A.cs", some "public class A"⟩ ++
  List.replicate 145 ⟨"/p/Core/B.cs", some "internal class B"⟩

/-- A Domain-layer file with business vocabulary and an ORM context
reference: one EF_IN_DOMAIN finding. -/
def ex9File : MFile :=
  ⟨"/p/Domain/Order.cs", some "namespace S.Domain;\nclass Order\nDbContext db;"⟩

/-- A Domain-layer file importing an Infrastructure namespace: layering
score 0, encapsulation and abstraction (and cycles) score 5. -/
def ex1File : MFile :=
  ⟨"/p/Domain/O.cs", some "namespace S.Domain;\nusing S.Infrastructure;\nclass C"⟩

/-- A file that declares no namespace but imports `B.Ns`. -/
def ex6A : MFile := ⟨"/p/A.cs", some "using B.Ns;"⟩

/-- A file owning the namespace `B.Ns`. -/
def ex6B : MFile := ⟨"/p/B.cs", some "namespace B.Ns;"⟩

/-- Mutually-importing two-file project (no Domain involvement). -/
def ex4A : MFile := ⟨"/p/Application/A.cs", some "namespace NsA;\nusing NsB;"⟩

def ex4B : MFile := ⟨"/p/Infrastructure/B.cs", some "namespace NsB;\nusing NsA;"⟩

/-- The violation produced by a Domain file importing `S.Infrastructure`. -/
def exViolation : Violation :=
  ⟨"A.cs", "/src/Domain/A.cs", "Domain", "Infrastructure", "S.Infrastructure",
   "CRITICAL"⟩

/-- The expected result of the first cached abstraction run on `ex9File`. -/
def ex9Run1 : AbsResult :=
  ⟨"/p", 1, 1, [⟨"Order.cs", "Domain", "EF_IN_DOMAIN", "CRITICAL"⟩], 1, 0,
   "Kritisch"⟩

/-- The cache state after the first run on `ex9File`. -/
def ex9Cache : Cache :=
  [("/p/Domain/Order.cs", "hnamespace S.Domain;\nclass Order\nDbContext db;")]

/-- The expected result of the second cached abstraction run on `ex9File`:
the unchanged file is skipped and its finding is gone. -/
def ex9Run2 : AbsResult := ⟨"/p", 1, 0, [], 0, 5, "Exzellent"⟩

/-- The `analyze_mmi` report on an empty project: all three dimension
scores are 5, yet the overall is NaN with level "Kritisch". -/
def exEmptyReport : MMIReport :=
  ⟨⟨"/q", 0, [], 0, 5, "Exzellent"⟩,
   ⟨"/q", 0, 0, ⟨0, 0, 0, 0, 0, 0⟩, 0, 0, [], 0, 5, "Exzellent"⟩,
   ⟨"/q", 0, 0, [], 0, 5, "Exzellent"⟩,
   none, "Kritisch"⟩

/-- The cycle-analysis result on the mutual two-file project: one cycle of
length 2, severity HIGH. -/
def exCycleResult : CycleResult :=
  ⟨"/p", 2, [⟨1, ["A.cs", "B.cs"], 2, "HIGH", ["Application", "Infrastructure"]⟩],
   1, ["A.cs", "B.cs"], 2, cyclesScore 1 2, getLevelLayering (cyclesScore 1 2)⟩

/-- A two-type project (one public, one internal type). -/
def ex8Small : MFile := ⟨"/p/X.cs", some "public class A\ninternal class B"⟩

/-- The encapsulation result on `ex8Small`: 50% public, score 1. -/
def ex8SmallResult : EncapsResult :=
  ⟨"/p", 1, 2, ⟨1, 1, 0, 0, 0, 0⟩, 1, 50, [⟨"X.cs", "/X.cs", "class", "A"⟩],
   1, 1, "Schlecht"⟩

end MMI

namespace MMI

/-! ## Theorems -/

theorem length_filterMap_if {α β : Type} (l : List α) (p : α → Bool)
    (f : α → β) :
    (l.filterMap (fun x => if p x then some (f x) else none)).length =
      (l.filter p).length := by
  induction l with
  | nil => rfl
  | cons x xs ih =>
    by_cases hx : p x = true
    · simp [List.filterMap_cons, List.filter_cons, hx, ih]
    · simp [List.filterMap_cons, List.filter_cons, hx, ih]

/-- C5: Every layering violation carries the severity of the fixed
deterministic table on its (source layer, forbidden target layer) pair:
Domain→Infrastructure CRITICAL, Domain→Application HIGH,
Application→Infrastructure MEDIUM, every other pair LOW.  The severity is a
function of the pair alone, so it cannot depend on violation counts or
processing order. -/
theorem checkViolations_severity_table (layer : String) (usings : List String)
    (filePath : String) (v : Violation) (hv : v ∈ checkViolations layer usings filePath) :
    v.layer = layer ∧
    v.severity =
      (if v.layer = "Domain" ∧ v.dependsOn = "Infrastructure" then "CRITICAL"
       else if v.layer = "Domain" ∧ v.dependsOn = "Application" then "HIGH"
       else if v.layer = "Application" ∧ v.dependsOn = "Infrastructure" then "MEDIUM"
       else "LOW") := by
  simp only [checkViolations, List.mem_flatMap, List.mem_filterMap] at hv
  obtain ⟨u, _, fl, _, hif⟩ := hv
  split at hif
  · cases hif
    refine ⟨rfl, ?_⟩
    simp only [getSeverity, Bool.and_eq_true, beq_iff_eq]
  · cases hif

/-- Witness for `checkViolations_severity_table` at a concrete Domain
violation. -/
theorem checkViolations_severity_table_witness :
    exViolation ∈ checkViolations "Domain" ["S.Infrastructure"] "/src/Domain/A.cs" ∧
    (exViolation.layer = "Domain" ∧
     exViolation.severity =
      (if exViolation.layer = "Domain" ∧ exViolation.dependsOn = "Infrastructure" then "CRITICAL"
       else if exViolation.layer = "Domain" ∧ exViolation.dependsOn = "Application" then "HIGH"
       else if exViolation.layer = "Application" ∧ exViolation.dependsOn = "Infrastructure" then "MEDIUM"
       else "LOW")) :=
  ⟨by decide,
   checkViolations_severity_table "Domain" ["S.Infrastructure"] "/src/Domain/A.cs"
     exViolation (by decide)⟩

/-- C10: A single imported namespace produces one layering violation per
forbidden target layer whose name occurs in the namespace text, so one
`using` can contribute several violations; concretely, a Domain-layer file
importing `Shop.Infrastructure.Web.Client` yields two violations. -/
theorem checkViolations_one_per_matching_layer :
    (∀ (layer u filePath : String),
      (checkViolations layer [u] filePath).length =
        ((rules layer).filter (fun fl => strIncludes u fl)).length) ∧
    (checkViolations "Domain" ["Shop.Infrastructure.Web.Client"] "/src/Domain/A.cs").length = 2 := by
  constructor
  · intro layer u filePath
    simp only [checkViolations, List.flatMap_cons, List.flatMap_nil,
      List.append_nil]
    exact length_filterMap_if _ _ _
  · decide

/-- C2 (counterexample): in `ex2File` the string
`using Shop.Infrastructure.Db;` occurs only inside a whole-line comment
(the cleaned text contains no usings at all), yet `analyzeLayering`
produces one violation from it; likewise in `ex2bFile` the declaration
`public class Hidden` occurs only inside a whole-line comment (the
cleaned text yields no exposure at all), yet `analyzeEncapsulation`
reports it as an over-exposed type: both analyzers extract from the raw,
uncleaned content. -/
theorem commented_code_triggers_layering_violation :
    (analyzeLayering "/proj" [ex2File]).toOption.map
        (fun r => (r.violationCount, r.violations.map (fun v => v.usingNs))) =
      some (1, ["Shop.Infrastructure.Db"]) ∧
    extractUsingsLayering
      (cleanCode "namespace Shop.Domain;\n// using Shop.Infrastructure.Db;\nclass Order") = [] ∧
    (analyzeEncapsulation "/proj" [ex2bFile]).toOption.map
        (fun r => r.overExposed.map (fun t => (t.typeKind, t.name))) =
      some [("class", "Hidden")] ∧
    checkOverExposure (cleanCode "namespace Shop.Core;\n// public class Hidden")
      "Hidden.cs" "/src/Core/Hidden.cs" = [] := by
  exact ⟨rfl, rfl, rfl, rfl⟩

/-- C2 (amended): comment stripping removes exactly the whole lines whose
trimmed text starts with `//`, and its only call sites are the
abstraction analyzer (whose findings are computed from `cleanCode` of the
raw content) and the using-extraction of the cycle-graph building pass;
the layering analyzer extracts its usings from the raw content, and the
encapsulation analyzer computes its visibility stats and exposure
findings from the raw content. -/
theorem comment_stripping_amended (pp raw : String) (f : MFile)
    (h : f.content = some raw) :
    cleanCode raw =
      joinLines
        ((linesOf raw).filter (fun line => !(startsWithStr (trimStr line) "//"))) ∧
    (analyzeAbstraction pp [f] false []).toOption.map
        (fun rc => rc.1.mixedAbstractions) =
      some (detectMixedAbstractions (cleanCode raw) (basename f.path)
        (replaceFirst f.path pp)) ∧
    (analyzeLayering pp [f]).toOption.map (fun r => r.violations) =
      some (match detectLayer (replaceFirst f.path pp) with
        | none => []
        | some layer =>
          checkViolations layer (extractUsingsLayering raw)
            (replaceFirst f.path pp)) ∧
    (analyzeEncapsulation pp [f]).toOption.map
        (fun r => (r.stats, r.overExposed)) =
      some (analyzeVisibility raw emptyStats,
        checkOverExposure raw (basename f.path) (replaceFirst f.path pp)) ∧
    (∀ (m : NsMap) (g : Graph),
      buildPass2 m [f] g =
        Except.ok (addEdgesForFile m (basename f.path) (extractNamespace raw)
          (extractUsingsCycles (cleanCode raw)) g)) := by
  refine ⟨rfl, ?_, ?_, ?_, ?_⟩
  · simp [analyzeAbstraction, abstractionFold, readFileSync, h, Except.toOption]
  · simp only [analyzeLayering, layeringFold, readFileSync, h]
    cases hd : detectLayer (replaceFirst f.path pp) with
    | none => simp [Except.toOption]
    | some layer => simp [Except.toOption]
  · simp [analyzeEncapsulation, encapsFold, readFileSync, h, Except.toOption]
  · intro m g
    simp [buildPass2, readFileSync, h]

/-- Witness for `comment_stripping_amended` at `ex2File`. -/
theorem comment_stripping_amended_witness :
    ex2File.content = some ex2Raw ∧
    (cleanCode ex2Raw =
      joinLines
        ((linesOf ex2Raw).filter (fun line => !(startsWithStr (trimStr line) "//"))) ∧
    (analyzeAbstraction "/proj" [ex2File] false []).toOption.map
        (fun rc => rc.1.mixedAbstractions) =
      some (detectMixedAbstractions (cleanCode ex2Raw)
        (basename ex2File.path) (replaceFirst ex2File.path "/proj")) ∧
    (analyzeLayering "/proj" [ex2File]).toOption.map (fun r => r.violations) =
      some (match detectLayer (replaceFirst ex2File.path "/proj") with
        | none => []
        | some layer =>
          checkViolations layer (extractUsingsLayering ex2Raw)
            (replaceFirst ex2File.path "/proj")) ∧
    (analyzeEncapsulation "/proj" [ex2File]).toOption.map
        (fun r => (r.stats, r.overExposed)) =
      some (analyzeVisibility ex2Raw emptyStats,
        checkOverExposure ex2Raw (basename ex2File.path)
          (replaceFirst ex2File.path "/proj")) ∧
    (∀ (m : NsMap) (g : Graph),
      buildPass2 m [ex2File] g =
        Except.ok (addEdgesForFile m (basename ex2File.path)
          (extractNamespace ex2Raw) (extractUsingsCycles (cleanCode ex2Raw)) g))) :=
  ⟨rfl, comment_stripping_amended "/proj" ex2Raw ex2File rfl⟩

/-- C3 (counterexample): a project in which the second file's read fails:
all three analyzers abort with the propagated exception instead of skipping
the file and completing. -/
theorem unreadable_file_aborts_analyzers :
    analyzeLayering "/p" [ex3Good, ex3File] = Except.error "EACCES: /p/Domain/A.cs" ∧
    analyzeEncapsulation "/p" [ex3Good, ex3File] = Except.error "EACCES: /p/Domain/A.cs" ∧
    analyzeAbstraction "/p" [ex3Good, ex3File] false [] = Except.error "EACCES: /p/Domain/A.cs" := by
  exact ⟨rfl, rfl, rfl⟩

theorem layeringFold_error (pp : String) :
    ∀ files : List MFile, (∃ f ∈ files, f.content = none) →
      ∃ e, layeringFold pp files = Except.error e := by
  intro files h
  induction files with
  | nil => obtain ⟨f, hf, _⟩ := h; cases hf
  | cons f rest ih =>
    obtain ⟨g, hg, hgc⟩ := h
    cases hc : f.content with
    | none => exact ⟨"EACCES: " ++ f.path, by simp [layeringFold, readFileSync, hc]⟩
    | some c =>
      have hgr : g ∈ rest := by
        rcases List.mem_cons.mp hg with h1 | h1
        · rw [h1] at hgc; rw [hgc] at hc; cases hc
        · exact h1
      obtain ⟨e, he⟩ := ih ⟨g, hgr, hgc⟩
      exact ⟨e, by simp [layeringFold, readFileSync, hc, he]⟩

theorem encapsFold_error (pp : String) :
    ∀ files : List MFile, (∃ f ∈ files, f.content = none) →
      ∃ e, encapsFold pp files = Except.error e := by
  intro files h
  induction files with
  | nil => obtain ⟨f, hf, _⟩ := h; cases hf
  | cons f rest ih =>
    obtain ⟨g, hg, hgc⟩ := h
    cases hc : f.content with
    | none => exact ⟨"EACCES: " ++ f.path, by simp [encapsFold, readFileSync, hc]⟩
    | some c =>
      have hgr : g ∈ rest := by
        rcases List.mem_cons.mp hg with h1 | h1
        · rw [h1] at hgc; rw [hgc] at hc; cases hc
        · exact h1
      obtain ⟨e, he⟩ := ih ⟨g, hgr, hgc⟩
      exact ⟨e, by simp [encapsFold, readFileSync, hc, he]⟩

theorem abstractionFold_error (pp : String) (useCache : Bool) :
    ∀ (files : List MFile) (cache : Cache), (∃ f ∈ files, f.content = none) →
      ∃ e, abstractionFold pp useCache files cache = Except.error e := by
  intro files
  induction files with
  | nil => intro cache h; obtain ⟨f, hf, _⟩ := h; cases hf
  | cons f rest ih =>
    intro cache h
    obtain ⟨g, hg, hgc⟩ := h
    cases hc : f.content with
    | none => exact ⟨"EACCES: " ++ f.path, by simp [abstractionFold, readFileSync, hc]⟩
    | some c =>
      have hgr : g ∈ rest := by
        rcases List.mem_cons.mp hg with h1 | h1
        · rw [h1] at hgc; rw [hgc] at hc; cases hc
        · exact h1
      by_cases hskip : (if useCache then
          ((!(hasFileChanged cache f.path c).1 : Bool), (hasFileChanged cache f.path c).2)
          else (false, cache)).1 = true
      · obtain ⟨e, he⟩ := ih _ ⟨g, hgr, hgc⟩
        refine ⟨e, ?_⟩
        simp only [abstractionFold, readFileSync, hc]
        rw [if_pos hskip]
        exact he
      · obtain ⟨e, he⟩ := ih _ ⟨g, hgr, hgc⟩
        refine ⟨e, ?_⟩
        simp only [abstractionFold, readFileSync, hc]
        rw [if_neg hskip, he]

/-- C3 (amended): an individual file whose read fails mid-scan is not
skipped: every analyzer propagates the exception and aborts with an error
result. -/
theorem read_error_propagates (pp : String) (files : List MFile)
    (h : ∃ f ∈ files, f.content = none) :
    (∃ e, analyzeLayering pp files = Except.error e) ∧
    (∃ e, analyzeEncapsulation pp files = Except.error e) ∧
    (∀ (useCache : Bool) (cache : Cache),
      ∃ e, analyzeAbstraction pp files useCache cache = Except.error e) := by
  refine ⟨?_, ?_, ?_⟩
  · obtain ⟨e, he⟩ := layeringFold_error pp files h
    exact ⟨e, by simp [analyzeLayering, he]⟩
  · obtain ⟨e, he⟩ := encapsFold_error pp files h
    exact ⟨e, by simp [analyzeEncapsulation, he]⟩
  · intro useCache cache
    obtain ⟨e, he⟩ := abstractionFold_error pp useCache files cache h
    exact ⟨e, by simp [analyzeAbstraction, he]⟩

/-- Witness for `read_error_propagates` on the single-unreadable-file
project. -/
theorem read_error_propagates_witness :
    (∃ f ∈ [ex3File], f.content = none) ∧
    ((∃ e, analyzeLayering "/p" [ex3File] = Except.error e) ∧
     (∃ e, analyzeEncapsulation "/p" [ex3File] = Except.error e) ∧
     (∀ (useCache : Bool) (cache : Cache),
       ∃ e, analyzeAbstraction "/p" [ex3File] useCache cache = Except.error e)) :=
  ⟨⟨ex3File, by simp, rfl⟩,
   read_error_propagates "/p" [ex3File] ⟨ex3File, by simp, rfl⟩⟩

/-- C9 (counterexample): with the change cache enabled, two runs of the
abstraction analyzer over an unchanged directory do not agree: the first
finds the EF_IN_DOMAIN issue (score 0), the second skips the unchanged
file and reports no issues (score 5). -/
theorem cached_second_run_differs :
    (analyzeAbstraction "/p" [ex9File] true []).toOption.map
        (fun rc => (rc.1.issueCount, rc.1.mixedAbstractions, rc.2)) =
      some (1, [⟨"Order.cs", "Domain", "EF_IN_DOMAIN", "CRITICAL"⟩], ex9Cache) ∧
    (analyzeAbstraction "/p" [ex9File] true ex9Cache).toOption.map
        (fun rc => (rc.1.issueCount, rc.1.mixedAbstractions, rc.2)) =
      some (0, [], ex9Cache) := by
  exact ⟨rfl, rfl⟩

theorem abstractionFold_cache_free (pp : String) :
    ∀ (files : List MFile) (cache : Cache),
      abstractionFold pp false files cache =
        match abstractionFold pp false files [] with
        | Except.error e => Except.error e
        | Except.ok ic => Except.ok (ic.1, cache) := by
  intro files
  induction files with
  | nil => intro cache; rfl
  | cons f rest ih =>
    intro cache
    cases hc : f.content with
    | none => simp [abstractionFold, readFileSync, hc]
    | some c =>
      simp only [abstractionFold, readFileSync, hc, Bool.false_eq_true,
        if_false, Bool.if_false_left, ite_false]
      rw [ih cache, ih []]
      cases abstractionFold pp false rest [] with
      | error e => rfl
      | ok ic => rfl

/-- C9 (amended): with the cache path disabled, the analysis result is
independent of the cache state, so repeated runs over an unchanged
directory produce identical results; with the cache enabled the second run
drops the findings of unchanged files (see the counterexample). -/
theorem cache_disabled_independent (pp : String) (files : List MFile)
    (cache1 cache2 : Cache) :
    (analyzeAbstraction pp files false cache1).toOption.map (fun rc => rc.1) =
      (analyzeAbstraction pp files false cache2).toOption.map (fun rc => rc.1) := by
  simp only [analyzeAbstraction]
  rw [abstractionFold_cache_free pp files cache1,
    abstractionFold_cache_free pp files cache2]
  cases abstractionFold pp false files [] with
  | error e => rfl
  | ok ic => rfl

/-! Concrete evaluations of the rational score arithmetic. -/

theorem layeringScore_1_1 : layeringScore 1 1 = 0 := by
  norm_num [layeringScore]

theorem publicPercentageOf_0_1 : publicPercentageOf 0 1 = 0 := by
  norm_num [publicPercentageOf, roundTo1, round_eq]

theorem publicPercentageOf_62_207 : publicPercentageOf 62 207 = 30 := by
  norm_num [publicPercentageOf, roundTo1, round_eq]

theorem publicPercentageOf_1_2 : publicPercentageOf 1 2 = 50 := by
  norm_num [publicPercentageOf, roundTo1, round_eq]

theorem encapCalculateScore_0 : encapCalculateScore 0 = 5 := by
  norm_num [encapCalculateScore]

theorem encapCalculateScore_30 : encapCalculateScore 30 = 3 := by
  norm_num [encapCalculateScore]

theorem encapCalculateScore_50 : encapCalculateScore 50 = 1 := by
  norm_num [encapCalculateScore]

set_option maxRecDepth 8000 in
/-- C8 (counterexample): a scan with 62 public and 145 internal classes has
publicPercentage exactly 6200/207 = 29.9516…, which is smaller than 30, so
the spec's exact thresholds give score 4; the source rounds to one decimal
(30.0) before comparing and yields score 3. -/
theorem rounded_percentage_changes_score :
    (analyzeEncapsulation "/p" ex8Files).toOption.map
        (fun r => (r.publicTypes, r.totalTypes, r.score)) = some (62, 207, 3) ∧
    ((62 : ℚ) / 207 * 100 < 30) ∧
    specEncapsulationScore 62 207 = 4 := by
  refine ⟨?_, by norm_num, ?_⟩
  · have hf : encapsFold "/p" ex8Files = Except.ok (⟨62, 145, 0, 0, 0, 0⟩,
        List.replicate 62 ⟨"A.cs", "/Core/A.cs", "class", "A"⟩) := by rfl
    simp only [analyzeEncapsulation, hf]
    norm_num [Except.toOption, Option.map, publicPercentageOf_62_207,
      encapCalculateScore_30]
  · have h1 : ((62 : ℚ) / 207 * 100 < 30) := by norm_num
    have h2 : ¬((62 : ℚ) / 207 * 100 < 20) := by norm_num
    simp only [specEncapsulationScore]
    norm_num [h1, h2]

theorem roundTo1_close (q : ℚ) : |roundTo1 q - q| ≤ 1/20 := by
  have h := abs_sub_round (q * 10)
  rw [abs_sub_comm] at h
  have h2 : roundTo1 q - q = ((round (q * 10) : ℚ) - q * 10) / 10 := by
    rw [roundTo1]; ring
  rw [h2, abs_div]
  have h3 : |(10 : ℚ)| = 10 := by norm_num
  rw [h3]
  linarith

/-- C8 (amended): the encapsulation score is obtained by applying the
thresholds to `publicPercentage` ROUNDED to one decimal (`toFixed(1)`), not
to the exact ratio; the stored percentage is within 1/20 of the exact
value. -/
theorem encapsulation_score_amended (pp : String) (files : List MFile)
    (r : EncapsResult) (h : analyzeEncapsulation pp files = Except.ok r)
    (ht : 0 < r.totalTypes) :
    r.score = encapCalculateScore
      (roundTo1 ((r.publicTypes : ℚ) / (r.totalTypes : ℚ) * 100)) ∧
    |r.publicPercentage - (r.publicTypes : ℚ) / (r.totalTypes : ℚ) * 100| ≤ 1/20 := by
  simp only [analyzeEncapsulation] at h
  split at h
  · cases h
  · cases h
    constructor
    · simp only [publicPercentageOf, if_pos ht]
    · simp only [publicPercentageOf, if_pos ht]
      exact roundTo1_close _

/-- Witness for `encapsulation_score_amended` on the two-type project. -/
theorem encapsulation_score_amended_witness :
    analyzeEncapsulation "/p" [ex8Small] = Except.ok ex8SmallResult ∧
    0 < ex8SmallResult.totalTypes ∧
    (ex8SmallResult.score = encapCalculateScore
      (roundTo1 ((ex8SmallResult.publicTypes : ℚ) / (ex8SmallResult.totalTypes : ℚ) * 100)) ∧
    |ex8SmallResult.publicPercentage -
      (ex8SmallResult.publicTypes : ℚ) / (ex8SmallResult.totalTypes : ℚ) * 100| ≤ 1/20) := by
  have hf : encapsFold "/p" [ex8Small] = Except.ok (⟨1, 1, 0, 0, 0, 0⟩,
      [⟨"X.cs", "/X.cs", "class", "A"⟩]) := by rfl
  have h1 : analyzeEncapsulation "/p" [ex8Small] = Except.ok ex8SmallResult := by
    simp only [analyzeEncapsulation, hf]
    norm_num [ex8SmallResult, publicPercentageOf_1_2, encapCalculateScore_50,
      getLevelEncaps]
  exact ⟨h1, by norm_num [ex8SmallResult],
    encapsulation_score_amended "/p" [ex8Small] ex8SmallResult h1
      (by norm_num [ex8SmallResult])⟩

/-- C1 (counterexample): on a one-file project with dimension scores
layering 0, encapsulation 5, abstraction 5 (a cycle analysis would score
5), the spec's four-way mean is 15/4 = 3.75 with level "Gut"; the
`analyze_mmi` tool instead reports overall score NaN with level
"Kritisch", because `handleMMIAnalysis` binds the mode string to the
`cycles` parameter of `formatCombinedReport` and the composite sum
contains `undefined`. -/
theorem composite_counterexample :
    (handleMMIAnalysis "/p" [ex1File] "compact" false []).toOption.map
        (fun r => (r.layering.score, r.encapsulation.score, r.abstraction.score,
          r.overallScore, r.overallLevel)) =
      some (0, 5, 5, (none : JNum), "Kritisch") ∧
    (analyzeCycles "/p" [ex1File]).toOption.map (fun r => r.score) = some 5 ∧
    specCompositeOfFour 0 5 5 5 = 15/4 ∧
    getOverallLevel (15/4) = "Gut" ∧
    (none : JNum) ≠ some (specCompositeOfFour 0 5 5 5) := by
  refine ⟨?_, rfl, by norm_num [specCompositeOfFour],
    by norm_num [getOverallLevel], by simp⟩
  have hl : analyzeLayering "/p" [ex1File] = Except.ok
      ⟨"/p", 1, [⟨"O.cs", "/Domain/O.cs", "Domain", "Infrastructure",
        "S.Infrastructure", "CRITICAL"⟩], 1, layeringScore 1 1,
        getLevelLayering (layeringScore 1 1)⟩ := by rfl
  have he : analyzeEncapsulation "/p" [ex1File] = Except.ok
      ⟨"/p", 1, 1, ⟨0, 1, 0, 0, 0, 0⟩, 0, publicPercentageOf 0 1, [], 0,
        encapCalculateScore (publicPercentageOf 0 1),
        getLevelEncaps (encapCalculateScore (publicPercentageOf 0 1))⟩ := by rfl
  have ha : analyzeAbstraction "/p" [ex1File] false [] = Except.ok
      (⟨"/p", 1, 0, [], 0, 5, "Exzellent"⟩, []) := by rfl
  simp only [handleMMIAnalysis, hl, he, ha]
  simp only [Except.toOption, Option.map, layeringScore_1_1,
    publicPercentageOf_0_1, encapCalculateScore_0]
  rfl

/-- C1 (amended): every successful run of the `analyze_mmi` tool
(`handleMMIAnalysis`) reports overall score NaN and overall level
"Kritisch", whatever the project, mode, cache flag and cache state: the
mode string sits in the `cycles` slot of `formatCombinedReport`, so the
four-way composite sum contains `undefined` and the composite is never
the mean of four dimension scores. -/
theorem composite_is_nan (pp mode : String) (files : List MFile)
    (uc : Bool) (cache : Cache) (r : MMIReport)
    (h : handleMMIAnalysis pp files mode uc cache = Except.ok r) :
    r.overallScore = (none : JNum) ∧
    r.overallLevel = "Kritisch" ∧
    ∀ c : Nat, r.overallScore ≠
      some (specCompositeOfFour r.layering.score r.encapsulation.score
        r.abstraction.score c) := by
  simp only [handleMMIAnalysis] at h
  split at h
  · cases h
  · split at h
    · cases h
    · split at h
      · cases h
      · cases h
        exact ⟨rfl, rfl, fun c hc => Option.noConfusion hc⟩

/-- Witness for `composite_is_nan` on the empty project. -/
theorem composite_is_nan_witness :
    handleMMIAnalysis "/q" [] "compact" false [] = Except.ok exEmptyReport ∧
    (exEmptyReport.overallScore = (none : JNum) ∧
     exEmptyReport.overallLevel = "Kritisch" ∧
     ∀ c : Nat, exEmptyReport.overallScore ≠
       some (specCompositeOfFour exEmptyReport.layering.score
         exEmptyReport.encapsulation.score exEmptyReport.abstraction.score c)) := by
  have h1 : handleMMIAnalysis "/q" [] "compact" false [] =
      Except.ok exEmptyReport := by rfl
  exact ⟨h1, composite_is_nan "/q" "compact" [] false [] exEmptyReport h1⟩

/-! ### Reachability facts for the SCC model -/

/-- The edge relation of an edge list. -/
def edgeRel (edges : List (String × String)) (a b : String) : Prop :=
  (a, b) ∈ edges

theorem succsOf_mem (edges : List (String × String)) (n x : String) :
    x ∈ succsOf edges n ↔ (n, x) ∈ edges := by
  simp only [succsOf, List.mem_map, List.mem_filter]
  constructor
  · rintro ⟨e, ⟨he, heq⟩, rfl⟩
    have h1 : e.1 = n := by simpa using heq
    cases e
    simp only at h1
    rw [h1] at he
    exact he
  · intro h
    exact ⟨(n, x), ⟨h, by simp⟩, rfl⟩

theorem contains_iff {α : Type} [BEq α] [LawfulBEq α] (l : List α) (a : α) :
    l.contains a = true ↔ a ∈ l := List.elem_iff

theorem addNew_mem (xs : List String) :
    ∀ (s : List String) (a : String), a ∈ addNew s xs ↔ a ∈ s ∨ a ∈ xs := by
  induction xs with
  | nil => intro s a; simp [addNew]
  | cons x xs ih =>
    intro s a
    simp only [addNew]
    by_cases h : s.contains x = true
    · rw [if_pos h, ih]
      have hx : x ∈ s := (contains_iff s x).mp h
      simp only [List.mem_cons]
      constructor
      · rintro (h1 | h1)
        · exact Or.inl h1
        · exact Or.inr (Or.inr h1)
      · rintro (h1 | h1 | h1)
        · exact Or.inl h1
        · rw [h1]; exact Or.inl hx
        · exact Or.inr h1
    · rw [if_neg h, ih]
      simp only [List.mem_append, List.mem_singleton, List.mem_cons]
      tauto

theorem addNew_append (xs : List String) :
    ∀ s : List String, ∃ t, addNew s xs = s ++ t := by
  induction xs with
  | nil => intro s; exact ⟨[], by simp [addNew]⟩
  | cons x xs ih =>
    intro s
    simp only [addNew]
    by_cases h : s.contains x = true
    · rw [if_pos h]; exact ih s
    · rw [if_neg h]
      obtain ⟨t, ht⟩ := ih (s ++ [x])
      exact ⟨[x] ++ t, by rw [ht, List.append_assoc]⟩

theorem addNew_nodup (xs : List String) :
    ∀ s : List String, s.Nodup → (addNew s xs).Nodup := by
  induction xs with
  | nil => intro s hs; exact hs
  | cons x xs ih =>
    intro s hs
    simp only [addNew]
    by_cases h : s.contains x = true
    · rw [if_pos h]; exact ih s hs
    · rw [if_neg h]
      apply ih
      have hx : x ∉ s := fun hm => h ((contains_iff s x).mpr hm)
      simp [List.nodup_append, hs, hx]

theorem addNew_of_fresh (xs : List String) :
    ∀ s : List String, xs.Nodup → (∀ x ∈ xs, x ∉ s) → addNew s xs = s ++ xs := by
  induction xs with
  | nil => intro s _ _; simp [addNew]
  | cons x xs ih =>
    intro s hnd hfresh
    simp only [addNew]
    have hx : ¬s.contains x = true := by
      intro h
      exact hfresh x (List.mem_cons_self x xs) ((contains_iff s x).mp h)
    rw [if_neg hx]
    rw [ih (s ++ [x]) (List.Nodup.of_cons hnd)]
    · simp
    · intro y hy
      simp only [List.mem_append, List.mem_singleton]
      rintro (h1 | h1)
      · exact hfresh y (List.mem_cons_of_mem x hy) h1
      · rw [h1] at hy
        exact (List.nodup_cons.mp hnd).1 hy

theorem stepClose_mem (edges : List (String × String)) (s : List String)
    (a : String) :
    a ∈ stepClose edges s ↔ a ∈ s ∨ ∃ n ∈ s, (n, a) ∈ edges := by
  simp [stepClose, addNew_mem, List.mem_flatMap, succsOf_mem]

theorem stepClose_append (edges : List (String × String)) (s : List String) :
    ∃ t, stepClose edges s = s ++ t := addNew_append _ s

theorem stepClose_nodup (edges : List (String × String)) (s : List String)
    (h : s.Nodup) : (stepClose edges s).Nodup := addNew_nodup _ s h

theorem stepClose_eq_of_length (edges : List (String × String))
    (s : List String) (h : (stepClose edges s).length = s.length) :
    stepClose edges s = s := by
  obtain ⟨t, ht⟩ := stepClose_append edges s
  rw [ht, List.length_append] at h
  have : t = [] := List.length_eq_zero.mp (by omega)
  rw [ht, this, List.append_nil]

theorem iterClose_subset (edges : List (String × String)) :
    ∀ (k : Nat) (s : List String) (a : String), a ∈ s → a ∈ iterClose edges k s := by
  intro k
  induction k with
  | zero => intro s a ha; exact ha
  | succ k ih =>
    intro s a ha
    simp only [iterClose]
    split
    · exact ha
    · apply ih
      obtain ⟨t, ht⟩ := stepClose_append edges s
      rw [ht]
      exact List.mem_append_left t ha

theorem iterClose_sound (edges : List (String × String)) (start : String) :
    ∀ (k : Nat) (s : List String),
      (∀ a ∈ s, Relation.ReflTransGen (edgeRel edges) start a) →
      ∀ a ∈ iterClose edges k s, Relation.ReflTransGen (edgeRel edges) start a := by
  intro k
  induction k with
  | zero => intro s hs a ha; exact hs a ha
  | succ k ih =>
    intro s hs a ha
    simp only [iterClose] at ha
    split at ha
    · exact hs a ha
    · refine ih (stepClose edges s) ?_ a ha
      intro b hb
      rcases (stepClose_mem edges s b).mp hb with h1 | h1
      · exact hs b h1
      · obtain ⟨n, hn, he⟩ := h1
        exact (hs n hn).tail he

theorem iterClose_nodup (edges : List (String × String)) :
    ∀ (k : Nat) (s : List String), s.Nodup → (iterClose edges k s).Nodup := by
  intro k
  induction k with
  | zero => intro s hs; exact hs
  | succ k ih =>
    intro s hs
    simp only [iterClose]
    split
    · exact hs
    · exact ih _ (stepClose_nodup edges s hs)

theorem iterClose_closed (edges : List (String × String)) (U : List String)
    (hUe : ∀ e ∈ edges, e.2 ∈ U) :
    ∀ (k : Nat) (s : List String), s.Nodup → (∀ a ∈ s, a ∈ U) →
      U.toFinset.card ≤ k + s.length →
      ∀ n ∈ iterClose edges k s, ∀ x, (n, x) ∈ edges → x ∈ iterClose edges k s := by
  intro k
  induction k with
  | zero =>
    intro s hnd hsub hcard n hn x hx
    have hsf : s.toFinset ⊆ U.toFinset := by
      intro a ha
      exact List.mem_toFinset.mpr (hsub a (List.mem_toFinset.mp ha))
    have hcs : s.toFinset.card = s.length := List.toFinset_card_of_nodup hnd
    have hUs : U.toFinset = s.toFinset :=
      (Finset.eq_of_subset_of_card_le hsf (by rw [hcs]; simpa using hcard)).symm
    have hxU : x ∈ U := hUe (n, x) hx
    have : x ∈ s.toFinset := by rw [← hUs]; exact List.mem_toFinset.mpr hxU
    exact List.mem_toFinset.mp this
  | succ k ih =>
    intro s hnd hsub hcard n hn x hx
    simp only [iterClose] at hn ⊢
    by_cases hfix : (stepClose edges s).length = s.length
    · rw [if_pos hfix] at hn ⊢
      have heq := stepClose_eq_of_length edges s hfix
      rw [← heq]
      exact (stepClose_mem edges s x).mpr (Or.inr ⟨n, hn, hx⟩)
    · rw [if_neg hfix] at hn ⊢
      obtain ⟨t, ht⟩ := stepClose_append edges s
      have htne : t ≠ [] := by
        intro h0
        exact hfix (by rw [ht, h0, List.append_nil])
      have hlen : s.length + 1 ≤ (stepClose edges s).length := by
        rw [ht, List.length_append]
        have : 0 < t.length := List.length_pos.mpr htne
        omega
      refine ih (stepClose edges s) (stepClose_nodup edges s hnd) ?_ ?_ n hn x hx
      · intro a ha
        rcases (stepClose_mem edges s a).mp ha with h1 | h1
        · exact hsub a h1
        · obtain ⟨m, _, he⟩ := h1
          exact hUe (m, a) he
      · omega

theorem reachSet_start (edges : List (String × String)) (n : String) :
    n ∈ reachSet edges n :=
  iterClose_subset edges edges.length [n] n (List.mem_singleton_self n)

theorem reachSet_closed (edges : List (String × String)) (n : String) :
    ∀ m ∈ reachSet edges n, ∀ x, (m, x) ∈ edges → x ∈ reachSet edges n := by
  have hcard : (n :: edges.map (fun e => e.2)).toFinset.card ≤
      edges.length + [n].length := by
    calc (n :: edges.map (fun e => e.2)).toFinset.card
        ≤ (n :: edges.map (fun e => e.2)).length := List.toFinset_card_le _
      _ = edges.length + 1 := by simp
  exact iterClose_closed edges (n :: edges.map (fun e => e.2))
    (fun e he => List.mem_cons_of_mem n (List.mem_map_of_mem (fun e => e.2) he))
    edges.length [n] (List.nodup_singleton n)
    (fun a ha => by rw [List.mem_singleton.mp ha]; exact List.mem_cons_self n _)
    hcard

theorem reachB_iff (edges : List (String × String)) (a b : String) :
    reachB edges a b = true ↔ Relation.ReflTransGen (edgeRel edges) a b := by
  constructor
  · intro h
    have hb : b ∈ reachSet edges a := (contains_iff _ b).mp h
    refine iterClose_sound edges a edges.length [a] ?_ b hb
    intro c hc
    rw [List.mem_singleton.mp hc]
  · intro h
    induction h with
    | refl => exact (contains_iff _ a).mpr (reachSet_start edges a)
    | tail hab hbc ih =>
      rename_i b' c'
      exact (contains_iff _ c').mpr
        (reachSet_closed edges a b' ((contains_iff _ b').mp ih) c' hbc)

theorem mutualB_self (edges : List (String × String)) (a : String) :
    mutualB edges a a = true := by
  have h := (reachB_iff edges a a).mpr Relation.ReflTransGen.refl
  simp [mutualB, h]

theorem mutualB_symm (edges : List (String × String)) (a b : String)
    (h : mutualB edges a b = true) : mutualB edges b a = true := by
  simp only [mutualB, Bool.and_eq_true] at h ⊢
  exact ⟨h.2, h.1⟩

theorem mutualB_trans (edges : List (String × String)) (a b c : String)
    (h1 : mutualB edges a b = true) (h2 : mutualB edges b c = true) :
    mutualB edges a c = true := by
  simp only [mutualB, Bool.and_eq_true, reachB_iff] at h1 h2 ⊢
  exact ⟨h1.1.trans h2.1, h2.2.trans h1.2⟩

/-! ### Strongly connected components: disjointness -/

theorem sccOf_mem (g : Graph) (n m : String) :
    m ∈ sccOf g n ↔ m ∈ g.nodes ∧ mutualB g.edges n m = true := by
  simp [sccOf, List.mem_filter]

theorem sccOf_nodup (g : Graph) (n : String) (h : g.nodes.Nodup) :
    (sccOf g n).Nodup := List.Nodup.filter _ h

theorem sccsAux_props (g : Graph) :
    ∀ (rest seen : List String),
      (∀ m ∈ rest, m ∈ g.nodes) →
      (∀ x y, x ∈ seen → y ∈ g.nodes → mutualB g.edges x y = true → y ∈ seen) →
      List.Pairwise (fun c1 c2 => ∀ x ∈ c1, x ∉ c2) (sccsAux g rest seen) ∧
      (∀ c ∈ sccsAux g rest seen,
        (∃ n, n ∈ g.nodes ∧ c = sccOf g n) ∧ ∀ x ∈ c, x ∉ seen) := by
  intro rest
  induction rest with
  | nil => intro seen _ _; exact ⟨List.Pairwise.nil, by simp [sccsAux]⟩
  | cons n rest ih =>
    intro seen hrest hseen
    simp only [sccsAux]
    by_cases hn : seen.contains n = true
    · rw [if_pos hn]
      exact ih seen (fun m hm => hrest m (List.mem_cons_of_mem n hm)) hseen
    · rw [if_neg hn]
      have hnn : n ∈ g.nodes := hrest n (List.mem_cons_self n rest)
      have hnotseen : n ∉ seen := fun h => hn ((contains_iff seen n).mpr h)
      have hseen' : ∀ x y, x ∈ seen ++ sccOf g n → y ∈ g.nodes →
          mutualB g.edges x y = true → y ∈ seen ++ sccOf g n := by
        intro x y hx hy hxy
        rcases List.mem_append.mp hx with hx | hx
        · exact List.mem_append_left _ (hseen x y hx hy hxy)
        · have hnx := ((sccOf_mem g n x).mp hx).2
          exact List.mem_append_right _
            ((sccOf_mem g n y).mpr ⟨hy, mutualB_trans _ _ _ _ hnx hxy⟩)
      obtain ⟨ihp, ihc⟩ := ih (seen ++ sccOf g n)
        (fun m hm => hrest m (List.mem_cons_of_mem n hm)) hseen'
      constructor
      · refine List.Pairwise.cons ?_ ihp
        intro c hc x hx hxc
        exact (ihc c hc).2 x hxc (List.mem_append_right _ hx)
      · intro c hc
        rcases List.mem_cons.mp hc with hc | hc
        · subst hc
          refine ⟨⟨n, hnn, rfl⟩, ?_⟩
          intro x hx hxseen
          have hnx := ((sccOf_mem g n x).mp hx).2
          exact hnotseen (hseen x n hxseen hnn (mutualB_symm _ _ _ hnx))
        · obtain ⟨hex, havoid⟩ := ihc c hc
          exact ⟨hex, fun x hx hxseen => havoid x hx (List.mem_append_left _ hxseen)⟩

theorem sccsG_props (g : Graph) :
    List.Pairwise (fun c1 c2 => ∀ x ∈ c1, x ∉ c2) (sccsG g) ∧
    ∀ c ∈ sccsG g, ∃ n, n ∈ g.nodes ∧ c = sccOf g n := by
  obtain ⟨hp, hc⟩ := sccsAux_props g g.nodes [] (fun m hm => hm) (by simp)
  exact ⟨hp, fun c hcm => (hc c hcm).1⟩

theorem findCyclesG_pairwise (g : Graph) :
    List.Pairwise (fun c1 c2 => ∀ x ∈ c1, x ∉ c2) (findCyclesG g) :=
  List.Pairwise.sublist (List.filter_sublist _) (sccsG_props g).1

theorem findCyclesG_nodup (g : Graph) (h : g.nodes.Nodup) :
    ∀ c ∈ findCyclesG g, c.Nodup := by
  intro c hc
  have hcs : c ∈ sccsG g := List.mem_of_mem_filter hc
  obtain ⟨n, _, rfl⟩ := (sccsG_props g).2 c hcs
  exact sccOf_nodup g n h

/-! ### Graph construction invariants -/

theorem foldl_preserve_mem {α : Type} (P : Graph → Prop) (f : Graph → α → Graph) :
    ∀ (l : List α), (∀ g x, x ∈ l → P g → P (f g x)) →
      ∀ (g : Graph), P g → P (List.foldl f g l) := by
  intro l
  induction l with
  | nil => intro _ g hg; exact hg
  | cons x xs ih =>
    intro hf g hg
    exact ih (fun g y hy hPg => hf g y (List.mem_cons_of_mem x hy) hPg)
      (f g x) (hf g x (List.mem_cons_self x xs) hg)

theorem foldl_preserve {α : Type} (P : Graph → Prop) (f : Graph → α → Graph)
    (hf : ∀ g x, P g → P (f g x)) :
    ∀ (l : List α) (g : Graph), P g → P (List.foldl f g l) := by
  intro l g hg
  exact foldl_preserve_mem P f l (fun g x _ hPg => hf g x hPg) g hg

theorem setNode_nodup (g : Graph) (n : String) (h : g.nodes.Nodup) :
    (setNode g n).nodes.Nodup := by
  simp only [setNode]
  split
  · exact h
  · rename_i hn
    simp only
    rw [List.nodup_append]
    exact ⟨h, List.nodup_singleton n,
      by simpa using fun hm => hn ((contains_iff _ n).mpr hm)⟩

theorem setNode_mem (g : Graph) (n m : String) :
    m ∈ (setNode g n).nodes ↔ m ∈ g.nodes ∨ m = n := by
  simp only [setNode]
  split
  · rename_i hn
    have : n ∈ g.nodes := (contains_iff _ n).mp hn
    constructor
    · exact Or.inl
    · rintro (h | h)
      · exact h
      · rw [h]; exact this
  · simp [List.mem_append]

theorem setEdge_nodes_nodup (g : Graph) (a b : String) (h : g.nodes.Nodup) :
    (setEdge g a b).nodes.Nodup := by
  simp only [setEdge]
  split
  · exact setNode_nodup _ b (setNode_nodup g a h)
  · exact setNode_nodup _ b (setNode_nodup g a h)

theorem setEdge_mem (g : Graph) (a b m : String) :
    m ∈ (setEdge g a b).nodes ↔ m ∈ g.nodes ∨ m = a ∨ m = b := by
  simp only [setEdge]
  split
  · rw [setNode_mem, setNode_mem]; tauto
  · rw [setNode_mem, setNode_mem]; tauto

theorem setNode_edges (g : Graph) (n : String) :
    (setNode g n).edges = g.edges := by
  simp only [setNode]
  split
  · rfl
  · rfl

theorem setEdge_edges (g : Graph) (a b : String) (e : String × String) :
    e ∈ (setEdge g a b).edges ↔ e ∈ g.edges ∨ e = (a, b) := by
  simp only [setEdge, setNode_edges]
  split
  · rename_i he
    have hab : (a, b) ∈ g.edges := (contains_iff _ _).mp he
    rw [setNode_edges, setNode_edges]
    constructor
    · exact Or.inl
    · rintro (h | h)
      · exact h
      · rw [h]; exact hab
  · simp [setNode_edges, List.mem_append]

theorem addEdgesForFile_nodes_nodup (m : NsMap) (fn : String)
    (own : Option String) (usings : List String) (g : Graph)
    (h : g.nodes.Nodup) : (addEdgesForFile m fn own usings g).nodes.Nodup := by
  refine foldl_preserve (fun g => g.nodes.Nodup) _ ?_ usings g h
  intro g u hg
  split
  · exact hg
  · split
    · exact hg
    · refine foldl_preserve (fun g => g.nodes.Nodup) _ ?_ _ g hg
      intro g t hgt
      split
      · exact hgt
      · exact setEdge_nodes_nodup g fn t hgt

theorem buildPass1_nodes_nodup :
    ∀ (files : List MFile) (m : NsMap) (g : Graph) (m' : NsMap) (g' : Graph),
      buildPass1 files m g = Except.ok (m', g') → g.nodes.Nodup →
      g'.nodes.Nodup := by
  intro files
  induction files with
  | nil =>
    intro m g m' g' h hg
    simp only [buildPass1, Except.ok.injEq, Prod.mk.injEq] at h
    rw [← h.2]
    exact hg
  | cons f rest ih =>
    intro m g m' g' h hg
    cases hc : f.content with
    | none => rw [buildPass1, readFileSync, hc] at h; cases h
    | some c =>
      rw [buildPass1, readFileSync, hc] at h
      simp only at h
      cases hns : extractNamespace c with
      | some ns =>
        rw [hns] at h
        exact ih _ _ _ _ h (setNode_nodup g (basename f.path) hg)
      | none =>
        rw [hns] at h
        exact ih _ _ _ _ h hg

theorem buildPass2_nodes_nodup (m : NsMap) :
    ∀ (files : List MFile) (g : Graph) (g' : Graph),
      buildPass2 m files g = Except.ok g' → g.nodes.Nodup → g'.nodes.Nodup := by
  intro files
  induction files with
  | nil =>
    intro g g' h hg
    simp only [buildPass2, Except.ok.injEq] at h
    rw [← h]
    exact hg
  | cons f rest ih =>
    intro g g' h hg
    cases hc : f.content with
    | none => rw [buildPass2, readFileSync, hc] at h; cases h
    | some c =>
      rw [buildPass2, readFileSync, hc] at h
      simp only at h
      exact ih _ _ h (addEdgesForFile_nodes_nodup _ _ _ _ g hg)

theorem buildCompleteGraph_nodes_nodup (files : List MFile) (g : Graph)
    (h : buildCompleteGraph files = Except.ok g) : g.nodes.Nodup := by
  simp only [buildCompleteGraph] at h
  cases hp1 : buildPass1 files [] Graph.empty with
  | error e => rw [hp1] at h; cases h
  | ok mg =>
    rw [hp1] at h
    simp only at h
    exact buildPass2_nodes_nodup mg.1 files mg.2 g h
      (buildPass1_nodes_nodup files [] Graph.empty mg.1 mg.2
        (by rw [hp1]) List.nodup_nil)

theorem distinctList_of_nodup (xs : List String) (h : xs.Nodup) :
    distinctList xs = xs := by
  have h2 := addNew_of_fresh xs [] h (by simp)
  simpa [distinctList] using h2

theorem flatten_distinct_length (L : List (List String))
    (hnd : ∀ c ∈ L, c.Nodup)
    (hp : List.Pairwise (fun c1 c2 => ∀ x ∈ c1, x ∉ c2) L) :
    (distinctList L.flatten).length = (L.map List.length).sum := by
  have hflat : L.flatten.Nodup := by
    rw [List.nodup_flatten]
    refine ⟨hnd, ?_⟩
    exact hp.imp (fun {a b} hab => fun x hx hxb => hab x hx hxb)
  rw [distinctList_of_nodup _ hflat, List.length_flatten]

theorem details_map_path (cs : List (List String)) (files : List MFile) :
    (analyzeCycleDetails cs files).map (fun c => c.path) = cs := by
  simp only [analyzeCycleDetails, List.map_map, Function.comp]
  exact List.enum_map_snd cs

theorem details_map_length (cs : List (List String)) (files : List MFile) :
    (analyzeCycleDetails cs files).map (fun c => c.length) = cs.map List.length := by
  have h1 : (analyzeCycleDetails cs files).map (fun c => c.length) =
      (analyzeCycleDetails cs files).map (fun c => c.path.length) := by
    apply List.map_congr_left
    intro c hc
    simp only [analyzeCycleDetails, List.mem_map] at hc
    obtain ⟨ic, _, rfl⟩ := hc
    rfl
  rw [h1,
    show (fun c : CycleInfo => c.path.length) =
      (List.length ∘ (fun c : CycleInfo => c.path)) from rfl,
    ← List.map_map, details_map_path]

/-- C7: the reported cycles of any cycle-analysis result are pairwise
disjoint (a file identifier belongs to at most one cycle), and
`filesInCyclesCount` — the number of unique files across all cycles —
equals the sum of the cycle lengths. -/
theorem cycles_disjoint_and_count (pp : String) (files : List MFile)
    (r : CycleResult) (h : analyzeCycles pp files = Except.ok r) :
    List.Pairwise (fun c1 c2 => ∀ x ∈ c1.path, x ∉ c2.path) r.cycles ∧
    r.filesInCyclesCount = (r.cycles.map (fun c => c.length)).sum := by
  simp only [analyzeCycles] at h
  cases hbg : buildCompleteGraph files with
  | error e => rw [hbg] at h; cases h
  | ok g =>
    rw [hbg] at h
    simp only at h
    cases h
    have hnodup := buildCompleteGraph_nodes_nodup files g hbg
    constructor
    · have hpw := findCyclesG_pairwise g
      rw [← details_map_path (findCyclesG g) files] at hpw
      exact List.pairwise_map.mp hpw
    · simp only [getUniqueFilesInCycles]
      rw [details_map_length]
      exact flatten_distinct_length (findCyclesG g) (findCyclesG_nodup g hnodup)
        (findCyclesG_pairwise g)

/-- Witness for `cycles_disjoint_and_count` on the mutual two-file
project. -/
theorem cycles_disjoint_and_count_witness :
    analyzeCycles "/p" [ex4A, ex4B] = Except.ok exCycleResult ∧
    (List.Pairwise (fun c1 c2 => ∀ x ∈ c1.path, x ∉ c2.path) exCycleResult.cycles ∧
     exCycleResult.filesInCyclesCount =
       (exCycleResult.cycles.map (fun c => c.length)).sum) := by
  have h1 : analyzeCycles "/p" [ex4A, ex4B] = Except.ok exCycleResult := by rfl
  exact ⟨h1, cycles_disjoint_and_count "/p" [ex4A, ex4B] exCycleResult h1⟩

/-! ### C6: the graph's node set -/

/-- C6 (counterexample): `ex6A` declares no namespace, yet it appears as a
node of the dependency graph (`setEdge` creates its endpoints), so the node
set is strictly larger than the set of namespace-declaring files. -/
theorem namespaceless_file_becomes_node :
    buildCompleteGraph [ex6A, ex6B] =
      Except.ok ⟨["B.cs", "A.cs"], [("A.cs", "B.cs")]⟩ ∧
    extractNamespace "using B.Ns;" = none ∧
    basename ex6A.path = "A.cs" := by
  exact ⟨rfl, rfl, rfl⟩

/-- `t` is the basename of some file of the scan that declared a
namespace. -/
def DeclaredIn (files : List MFile) (t : String) : Prop :=
  ∃ f ∈ files, ∃ c ns, f.content = some c ∧ extractNamespace c = some ns ∧
    basename f.path = t

theorem nsMapAdd_values (ns fn t : String) :
    ∀ (m : NsMap), ∀ p ∈ nsMapAdd m ns fn, t ∈ p.2 →
      (∃ q ∈ m, t ∈ q.2) ∨ t = fn := by
  intro m
  induction m with
  | nil =>
    intro p hp ht
    simp only [nsMapAdd, List.mem_singleton] at hp
    rw [hp] at ht
    simp only [List.mem_singleton] at ht
    exact Or.inr ht
  | cons e rest ih =>
    intro p hp ht
    simp only [nsMapAdd] at hp
    split at hp
    · rcases List.mem_cons.mp hp with hp | hp
      · rw [hp] at ht
        simp only at ht
        split at ht
        · exact Or.inl ⟨e, List.mem_cons_self e rest, ht⟩
        · rcases List.mem_append.mp ht with h1 | h1
          · exact Or.inl ⟨e, List.mem_cons_self e rest, h1⟩
          · exact Or.inr (List.mem_singleton.mp h1)
      · exact Or.inl ⟨p, List.mem_cons_of_mem e hp, ht⟩
    · rcases List.mem_cons.mp hp with hp | hp
      · rw [hp] at ht
        exact Or.inl ⟨e, List.mem_cons_self e rest, ht⟩
      · rcases ih p hp ht with h1 | h1
        · obtain ⟨q, hq, hqt⟩ := h1
          exact Or.inl ⟨q, List.mem_cons_of_mem e hq, hqt⟩
        · exact Or.inr h1

theorem nsMapLookup_entry (m : NsMap) (u : String) (ts : List String)
    (h : nsMapLookup m u = some ts) : ∃ p ∈ m, p.2 = ts := by
  simp only [nsMapLookup] at h
  cases hf : m.find? (fun e => e.1 == u) with
  | none => rw [hf] at h; cases h
  | some e =>
    rw [hf] at h
    simp only [Option.some.injEq] at h
    exact ⟨e, List.mem_of_find?_eq_some hf, h⟩

theorem buildPass1_map (filesAll : List MFile) :
    ∀ (fs : List MFile) (m : NsMap) (g : Graph) (m' : NsMap) (g' : Graph),
      buildPass1 fs m g = Except.ok (m', g') →
      (∀ f ∈ fs, f ∈ filesAll) →
      (∀ p ∈ m, ∀ t ∈ p.2, DeclaredIn filesAll t) →
      ∀ p ∈ m', ∀ t ∈ p.2, DeclaredIn filesAll t := by
  intro fs
  induction fs with
  | nil =>
    intro m g m' g' h _ hm
    simp only [buildPass1, Except.ok.injEq, Prod.mk.injEq] at h
    rw [← h.1]
    exact hm
  | cons f rest ih =>
    intro m g m' g' h hsub hm
    cases hc : f.content with
    | none => rw [buildPass1, readFileSync, hc] at h; cases h
    | some c =>
      rw [buildPass1, readFileSync, hc] at h
      simp only at h
      cases hns : extractNamespace c with
      | some ns =>
        rw [hns] at h
        refine ih _ _ _ _ h (fun x hx => hsub x (List.mem_cons_of_mem f hx)) ?_
        intro p hp t ht
        rcases nsMapAdd_values ns (basename f.path) t m p hp ht with h1 | h1
        · obtain ⟨q, hq, hqt⟩ := h1
          exact hm q hq t hqt
        · refine ⟨f, hsub f (List.mem_cons_self f rest), c, ns, hc, hns, h1.symm⟩
      | none =>
        rw [hns] at h
        exact ih _ _ _ _ h (fun x hx => hsub x (List.mem_cons_of_mem f hx)) hm

theorem addEdgesForFile_edges_inv (filesAll : List MFile) (m : NsMap)
    (fn : String) (own : Option String) (usings : List String) (g : Graph)
    (hm : ∀ p ∈ m, ∀ t ∈ p.2, DeclaredIn filesAll t)
    (hg : ∀ e ∈ g.edges, DeclaredIn filesAll e.2) :
    ∀ e ∈ (addEdgesForFile m fn own usings g).edges, DeclaredIn filesAll e.2 := by
  refine foldl_preserve (fun g => ∀ e ∈ g.edges, DeclaredIn filesAll e.2)
    _ ?_ usings g hg
  intro g u hPg
  split
  · exact hPg
  · cases hl : nsMapLookup m u with
    | none => simpa [hl] using hPg
    | some targets =>
      simp only [hl]
      obtain ⟨p, hp, hpt⟩ := nsMapLookup_entry m u targets hl
      refine foldl_preserve_mem (fun g => ∀ e ∈ g.edges, DeclaredIn filesAll e.2)
        _ targets ?_ g hPg
      intro g t htm hPg2
      split
      · exact hPg2
      · intro e he
        rcases (setEdge_edges g fn t e).mp he with h1 | h1
        · exact hPg2 e h1
        · rw [h1]
          exact hm p hp t (by rw [hpt]; exact htm)

theorem buildPass2_edges_inv (filesAll : List MFile) (m : NsMap)
    (hm : ∀ p ∈ m, ∀ t ∈ p.2, DeclaredIn filesAll t) :
    ∀ (fs : List MFile) (g g' : Graph), buildPass2 m fs g = Except.ok g' →
      (∀ e ∈ g.edges, DeclaredIn filesAll e.2) →
      ∀ e ∈ g'.edges, DeclaredIn filesAll e.2 := by
  intro fs
  induction fs with
  | nil =>
    intro g g' h hg
    simp only [buildPass2, Except.ok.injEq] at h
    rw [← h]
    exact hg
  | cons f rest ih =>
    intro g g' h hg
    cases hc : f.content with
    | none => rw [buildPass2, readFileSync, hc] at h; cases h
    | some c =>
      rw [buildPass2, readFileSync, hc] at h
      simp only at h
      exact ih _ _ h (addEdgesForFile_edges_inv filesAll m _ _ _ g hm hg)

theorem buildPass1_edges :
    ∀ (fs : List MFile) (m : NsMap) (g : Graph) (m' : NsMap) (g' : Graph),
      buildPass1 fs m g = Except.ok (m', g') → g'.edges = g.edges := by
  intro fs
  induction fs with
  | nil =>
    intro m g m' g' h
    simp only [buildPass1, Except.ok.injEq, Prod.mk.injEq] at h
    rw [← h.2]
  | cons f rest ih =>
    intro m g m' g' h
    cases hc : f.content with
    | none => rw [buildPass1, readFileSync, hc] at h; cases h
    | some c =>
      rw [buildPass1, readFileSync, hc] at h
      simp only at h
      cases hns : extractNamespace c with
      | some ns =>
        rw [hns] at h
        rw [ih _ _ _ _ h, setNode_edges]
      | none =>
        rw [hns] at h
        exact ih _ _ _ _ h

theorem addEdgesForFile_nodes_mono (m : NsMap) (fn : String)
    (own : Option String) (usings : List String) (g : Graph) (x : String)
    (hx : x ∈ g.nodes) : x ∈ (addEdgesForFile m fn own usings g).nodes := by
  refine foldl_preserve (fun g => x ∈ g.nodes) _ ?_ usings g hx
  intro g u hPg
  split
  · exact hPg
  · split
    · exact hPg
    · refine foldl_preserve (fun g => x ∈ g.nodes) _ ?_ _ g hPg
      intro g t hPg2
      split
      · exact hPg2
      · exact (setEdge_mem g fn t x).mpr (Or.inl hPg2)

theorem buildPass2_nodes_mono (m : NsMap) :
    ∀ (fs : List MFile) (g g' : Graph), buildPass2 m fs g = Except.ok g' →
      ∀ x ∈ g.nodes, x ∈ g'.nodes := by
  intro fs
  induction fs with
  | nil =>
    intro g g' h x hx
    simp only [buildPass2, Except.ok.injEq] at h
    rw [← h]
    exact hx
  | cons f rest ih =>
    intro g g' h x hx
    cases hc : f.content with
    | none => rw [buildPass2, readFileSync, hc] at h; cases h
    | some c =>
      rw [buildPass2, readFileSync, hc] at h
      simp only at h
      exact ih _ _ h x (addEdgesForFile_nodes_mono _ _ _ _ g x hx)

theorem buildPass1_nodes_mono :
    ∀ (fs : List MFile) (m : NsMap) (g : Graph) (m' : NsMap) (g' : Graph),
      buildPass1 fs m g = Except.ok (m', g') → ∀ x ∈ g.nodes, x ∈ g'.nodes := by
  intro fs
  induction fs with
  | nil =>
    intro m g m' g' h x hx
    simp only [buildPass1, Except.ok.injEq, Prod.mk.injEq] at h
    rw [← h.2]
    exact hx
  | cons f rest ih =>
    intro m g m' g' h x hx
    cases hc : f.content with
    | none => rw [buildPass1, readFileSync, hc] at h; cases h
    | some c =>
      rw [buildPass1, readFileSync, hc] at h
      simp only at h
      cases hns : extractNamespace c with
      | some ns =>
        rw [hns] at h
        exact ih _ _ _ _ h x ((setNode_mem g _ x).mpr (Or.inl hx))
      | none =>
        rw [hns] at h
        exact ih _ _ _ _ h x hx

theorem buildPass1_adds :
    ∀ (fs : List MFile) (m : NsMap) (g : Graph) (m' : NsMap) (g' : Graph),
      buildPass1 fs m g = Except.ok (m', g') →
      ∀ f ∈ fs, ∀ c ns, f.content = some c → extractNamespace c = some ns →
        basename f.path ∈ g'.nodes := by
  intro fs
  induction fs with
  | nil => intro m g m' g' _ f hf; cases hf
  | cons f0 rest ih =>
    intro m g m' g' h f hf c ns hc hns
    cases hc0 : f0.content with
    | none => rw [buildPass1, readFileSync, hc0] at h; cases h
    | some c0 =>
      rw [buildPass1, readFileSync, hc0] at h
      simp only at h
      rcases List.mem_cons.mp hf with hf | hf
      · subst hf
        rw [hc0] at hc
        cases hc
        rw [hns] at h
        refine buildPass1_nodes_mono rest _ _ _ _ h (basename f.path) ?_
        exact (setNode_mem g (basename f.path) (basename f.path)).mpr (Or.inr rfl)
      · cases hns0 : extractNamespace c0 with
        | some ns0 => rw [hns0] at h; exact ih _ _ _ _ h f hf c ns hc hns
        | none => rw [hns0] at h; exact ih _ _ _ _ h f hf c ns hc hns

/-- C6 (amended): every file that declares a namespace is a node of the
dependency graph, and every edge target is the basename of a
namespace-declaring file; but a file WITHOUT a namespace can still appear
as a node (as an edge source) when one of its imports resolves — see the
counterexample. -/
theorem graph_nodes_amended (files : List MFile) (g : Graph)
    (h : buildCompleteGraph files = Except.ok g) :
    (∀ f ∈ files, ∀ c ns, f.content = some c → extractNamespace c = some ns →
      basename f.path ∈ g.nodes) ∧
    (∀ e ∈ g.edges, DeclaredIn files e.2) := by
  simp only [buildCompleteGraph] at h
  cases hp1 : buildPass1 files [] Graph.empty with
  | error e => rw [hp1] at h; cases h
  | ok mg =>
    rw [hp1] at h
    simp only at h
    constructor
    · intro f hf c ns hc hns
      refine buildPass2_nodes_mono mg.1 files mg.2 g h (basename f.path) ?_
      exact buildPass1_adds files [] Graph.empty mg.1 mg.2 (by rw [hp1]) f hf c ns hc hns
    · refine buildPass2_edges_inv files mg.1 ?_ files mg.2 g h ?_
      · exact buildPass1_map files files [] Graph.empty mg.1 mg.2 (by rw [hp1])
          (fun f hf => hf) (by simp)
      · rw [buildPass1_edges files [] Graph.empty mg.1 mg.2 (by rw [hp1])]
        simp [Graph.empty]

/-- Witness for `graph_nodes_amended` on the two-file example project. -/
theorem graph_nodes_amended_witness :
    buildCompleteGraph [ex6A, ex6B] =
      Except.ok ⟨["B.cs", "A.cs"], [("A.cs", "B.cs")]⟩ ∧
    ((∀ f ∈ [ex6A, ex6B], ∀ c ns, f.content = some c →
        extractNamespace c = some ns →
        basename f.path ∈ (⟨["B.cs", "A.cs"], [("A.cs", "B.cs")]⟩ : Graph).nodes) ∧
     (∀ e ∈ (⟨["B.cs", "A.cs"], [("A.cs", "B.cs")]⟩ : Graph).edges,
        DeclaredIn [ex6A, ex6B] e.2)) := by
  have h1 : buildCompleteGraph [ex6A, ex6B] =
      Except.ok ⟨["B.cs", "A.cs"], [("A.cs", "B.cs")]⟩ := by rfl
  exact ⟨h1, graph_nodes_amended [ex6A, ex6B] _ h1⟩

/-! ### C4: a mutual two-file import cycle -/

theorem setNode_of_mem (g : Graph) (n : String) (h : n ∈ g.nodes) :
    setNode g n = g := by
  simp only [setNode]
  rw [if_pos ((contains_iff _ n).mpr h)]

theorem setEdge_eval (g : Graph) (a b : String) (ha : a ∈ g.nodes)
    (hb : b ∈ g.nodes) (hab : (a, b) ∉ g.edges) :
    setEdge g a b = ⟨g.nodes, g.edges ++ [(a, b)]⟩ := by
  simp only [setEdge, setNode_of_mem g a ha, setNode_of_mem g b hb]
  rw [if_neg (fun hc => hab ((contains_iff _ _).mp hc))]

theorem setEdge_setEdge (g : Graph) (a b : String) :
    setEdge (setEdge g a b) a b = setEdge g a b := by
  have ha : a ∈ (setEdge g a b).nodes := (setEdge_mem g a b a).mpr (Or.inr (Or.inl rfl))
  have hb : b ∈ (setEdge g a b).nodes := (setEdge_mem g a b b).mpr (Or.inr (Or.inr rfl))
  have hab : (a, b) ∈ (setEdge g a b).edges := (setEdge_edges g a b (a, b)).mpr (Or.inr rfl)
  generalize hg : setEdge g a b = g' at ha hb hab ⊢
  simp only [setEdge, setNode_of_mem _ a ha]
  rw [setNode_of_mem _ b hb]
  rw [if_pos ((contains_iff _ _).mpr hab)]

theorem addEdges_eval (nsA nsB a b : String) (hns : nsA ≠ nsB) (hab : a ≠ b) :
    ∀ (usings : List String) (g : Graph),
      addEdgesForFile [(nsA, [a]), (nsB, [b])] a (some nsA) usings g =
        if usings.contains nsB then setEdge g a b else g := by
  intro usings
  induction usings with
  | nil => intro g; simp [addEdgesForFile]
  | cons u us ih =>
    intro g
    have hstep : addEdgesForFile [(nsA, [a]), (nsB, [b])] a (some nsA) (u :: us) g =
        addEdgesForFile [(nsA, [a]), (nsB, [b])] a (some nsA) us
          (if (some nsA == some u) then g
           else match nsMapLookup [(nsA, [a]), (nsB, [b])] u with
             | none => g
             | some targets =>
               targets.foldl (fun g t => if a == t then g else setEdge g a t) g) := rfl
    rw [hstep]
    by_cases hu1 : u = nsA
    · rw [if_pos (by rw [hu1]; simp), ih]
      have h2 : (u :: us).contains nsB = us.contains nsB := by
        simp only [List.contains_cons]
        rw [show (nsB == u) = false from beq_eq_false_iff_ne.mpr
          (by rw [hu1]; exact Ne.symm hns)]
        simp
      rw [h2]
    · by_cases hu2 : u = nsB
      · rw [if_neg (by simp only [Option.some.injEq, beq_iff_eq]; exact fun h => hns (h.trans hu2))]
        have h2 : nsMapLookup [(nsA, [a]), (nsB, [b])] u = some [b] := by
          simp only [nsMapLookup, List.find?]
          rw [show (nsA == u) = false from beq_eq_false_iff_ne.mpr
            (by rw [hu2]; exact hns)]
          rw [show (nsB == u) = true from by rw [hu2]; exact beq_self_eq_true nsB]
        simp only [h2]
        have h3 : [b].foldl (fun g t => if a == t then g else setEdge g a t) g =
            setEdge g a b := by
          simp only [List.foldl]
          rw [show (a == b) = false from beq_eq_false_iff_ne.mpr hab]
          simp
        rw [h3, ih]
        have h4 : (u :: us).contains nsB = true := by
          simp [List.contains_cons, hu2]
        rw [h4]
        by_cases h5 : us.contains nsB = true
        · rw [if_pos h5, setEdge_setEdge, if_pos rfl]
        · rw [if_neg h5, if_pos rfl]
      · rw [if_neg (by simp only [Option.some.injEq, beq_iff_eq]; exact fun h => hu1 h.symm)]
        have h2 : nsMapLookup [(nsA, [a]), (nsB, [b])] u = none := by
          simp only [nsMapLookup, List.find?]
          rw [show (nsA == u) = false from beq_eq_false_iff_ne.mpr (fun h => hu1 h.symm)]
          rw [show (nsB == u) = false from beq_eq_false_iff_ne.mpr (fun h => hu2 h.symm)]
        simp only [h2]
        rw [ih]
        have h3 : (u :: us).contains nsB = us.contains nsB := by
          simp only [List.contains_cons]
          rw [show (nsB == u) = false from beq_eq_false_iff_ne.mpr (fun h => hu2 h.symm)]
          simp
        rw [h3]

theorem addEdges_eval' (nsA nsB a b : String) (hns : nsA ≠ nsB) (hab : a ≠ b) :
    ∀ (usings : List String) (g : Graph),
      addEdgesForFile [(nsA, [a]), (nsB, [b])] b (some nsB) usings g =
        if usings.contains nsA then setEdge g b a else g := by
  intro usings
  induction usings with
  | nil => intro g; simp [addEdgesForFile]
  | cons u us ih =>
    intro g
    have hstep : addEdgesForFile [(nsA, [a]), (nsB, [b])] b (some nsB) (u :: us) g =
        addEdgesForFile [(nsA, [a]), (nsB, [b])] b (some nsB) us
          (if (some nsB == some u) then g
           else match nsMapLookup [(nsA, [a]), (nsB, [b])] u with
             | none => g
             | some targets =>
               targets.foldl (fun g t => if b == t then g else setEdge g b t) g) := rfl
    rw [hstep]
    by_cases hu1 : u = nsB
    · rw [if_pos (by rw [hu1]; simp), ih]
      have h2 : (u :: us).contains nsA = us.contains nsA := by
        simp only [List.contains_cons]
        rw [show (nsA == u) = false from beq_eq_false_iff_ne.mpr
          (by rw [hu1]; exact hns)]
        simp
      rw [h2]
    · by_cases hu2 : u = nsA
      · rw [if_neg (by simp only [Option.some.injEq, beq_iff_eq]; exact fun h => hns ((h.trans hu2).symm))]
        have h2 : nsMapLookup [(nsA, [a]), (nsB, [b])] u = some [a] := by
          simp only [nsMapLookup, List.find?]
          rw [show (nsA == u) = true from by rw [hu2]; exact beq_self_eq_true nsA]
        simp only [h2]
        have h3 : [a].foldl (fun g t => if b == t then g else setEdge g b t) g =
            setEdge g b a := by
          simp only [List.foldl]
          rw [show (b == a) = false from beq_eq_false_iff_ne.mpr (Ne.symm hab)]
          simp
        rw [h3, ih]
        have h4 : (u :: us).contains nsA = true := by
          simp [List.contains_cons, hu2]
        rw [h4]
        by_cases h5 : us.contains nsA = true
        · rw [if_pos h5, setEdge_setEdge, if_pos rfl]
        · rw [if_neg h5, if_pos rfl]
      · rw [if_neg (by simp only [Option.some.injEq, beq_iff_eq]; exact fun h => hu1 h.symm)]
        have h2 : nsMapLookup [(nsA, [a]), (nsB, [b])] u = none := by
          simp only [nsMapLookup, List.find?]
          rw [show (nsA == u) = false from beq_eq_false_iff_ne.mpr (fun h => hu2 h.symm)]
          rw [show (nsB == u) = false from beq_eq_false_iff_ne.mpr (fun h => hu1 h.symm)]
        simp only [h2]
        rw [ih]
        have h3 : (u :: us).contains nsA = us.contains nsA := by
          simp only [List.contains_cons]
          rw [show (nsA == u) = false from beq_eq_false_iff_ne.mpr (fun h => hu2 h.symm)]
          simp
        rw [h3]

theorem isDomainPath_iff (p : String) :
    isDomainPath p = true ↔ detectLayer p = some "Domain" := by
  simp only [isDomainPath, detectLayer]
  by_cases h : strIncludes (normalizeSlashes p) "/Domain/" = true
  · simp [h]
  · constructor
    · intro hf
      exact absurd hf h
    · intro hf
      exfalso
      rw [if_neg h] at hf
      split_ifs at hf <;> simp_all

/-- C4: a project of exactly two files in different namespaces, each
importing the other's namespace, yields exactly one reported cycle of
length 2, with severity CRITICAL when either file's path lies in the
Domain layer and HIGH otherwise (and lying in the Domain layer is exactly
the `includes('/Domain/')` test used by the severity function). -/
theorem two_file_mutual_import_cycle (pp : String) (A B : MFile)
    (cA cB nsA nsB : String)
    (hA : A.content = some cA) (hB : B.content = some cB)
    (hnsA : extractNamespace cA = some nsA)
    (hnsB : extractNamespace cB = some nsB)
    (hns : nsA ≠ nsB) (hbase : basename A.path ≠ basename B.path)
    (hAuses : nsB ∈ extractUsingsCycles (cleanCode cA))
    (hBuses : nsA ∈ extractUsingsCycles (cleanCode cB)) :
    ∃ r, analyzeCycles pp [A, B] = Except.ok r ∧ r.cycleCount = 1 ∧
      r.cycles.length = 1 ∧
      (∀ c ∈ r.cycles, c.length = 2 ∧
        c.severity = (if isDomainPath A.path || isDomainPath B.path
          then "CRITICAL" else "HIGH")) ∧
      (∀ p : String, isDomainPath p = true ↔ detectLayer p = some "Domain") := by
  have e2 : nsMapAdd [(nsA, [basename A.path])] nsB (basename B.path) =
      [(nsA, [basename A.path]), (nsB, [basename B.path])] := by
    simp only [nsMapAdd]
    rw [show (nsA == nsB) = false from beq_eq_false_iff_ne.mpr hns]
    rfl
  have e4 : setNode ⟨[basename A.path], []⟩ (basename B.path) =
      ⟨[basename A.path, basename B.path], []⟩ := by
    simp only [setNode, List.contains_cons, List.contains_nil, Bool.or_false]
    rw [show (basename B.path == basename A.path) = false from
      beq_eq_false_iff_ne.mpr (Ne.symm hbase)]
    rfl
  have hpass1 : buildPass1 [A, B] [] Graph.empty =
      Except.ok ([(nsA, [basename A.path]), (nsB, [basename B.path])],
        ⟨[basename A.path, basename B.path], []⟩) := by
    simp only [buildPass1, readFileSync, hA, hB, hnsA, hnsB]
    rw [show nsMapAdd ([] : NsMap) nsA (basename A.path) =
      [(nsA, [basename A.path])] from rfl]
    rw [e2]
    rw [show setNode Graph.empty (basename A.path) =
      ⟨[basename A.path], []⟩ from rfl]
    rw [e4]
  have hedge1 : setEdge ⟨[basename A.path, basename B.path], []⟩
      (basename A.path) (basename B.path) =
      ⟨[basename A.path, basename B.path],
        [(basename A.path, basename B.path)]⟩ := by
    rw [setEdge_eval _ _ _ (by simp) (by simp) (by simp)]
    rfl
  have hedge2 : setEdge ⟨[basename A.path, basename B.path],
        [(basename A.path, basename B.path)]⟩
      (basename B.path) (basename A.path) =
      ⟨[basename A.path, basename B.path],
        [(basename A.path, basename B.path),
         (basename B.path, basename A.path)]⟩ := by
    have hne : (basename B.path, basename A.path) ∉
        [(basename A.path, basename B.path)] := by
      simp only [List.mem_singleton, Prod.mk.injEq]
      exact fun h => hbase h.1.symm
    rw [setEdge_eval _ _ _ (by simp) (by simp) hne]
    rfl

  have hpass2 : buildPass2 [(nsA, [basename A.path]), (nsB, [basename B.path])]
      [A, B] ⟨[basename A.path, basename B.path], []⟩ =
      Except.ok ⟨[basename A.path, basename B.path],
        [(basename A.path, basename B.path),
         (basename B.path, basename A.path)]⟩ := by
    simp only [buildPass2, readFileSync, hA, hB, hnsA, hnsB]
    rw [addEdges_eval nsA nsB (basename A.path) (basename B.path) hns hbase]
    rw [if_pos ((contains_iff _ _).mpr hAuses)]
    rw [hedge1]
    rw [addEdges_eval' nsA nsB (basename A.path) (basename B.path) hns hbase]
    rw [if_pos ((contains_iff _ _).mpr hBuses)]
    rw [hedge2]
  have hbuild : buildCompleteGraph [A, B] =
      Except.ok ⟨[basename A.path, basename B.path],
        [(basename A.path, basename B.path),
         (basename B.path, basename A.path)]⟩ := by
    simp only [buildCompleteGraph, hpass1]
    exact hpass2
  have hreAB : reachB [(basename A.path, basename B.path),
      (basename B.path, basename A.path)] (basename A.path) (basename B.path) = true :=
    (reachB_iff _ _ _).mpr (Relation.ReflTransGen.single (by simp [edgeRel]))
  have hreBA : reachB [(basename A.path, basename B.path),
      (basename B.path, basename A.path)] (basename B.path) (basename A.path) = true :=
    (reachB_iff _ _ _).mpr (Relation.ReflTransGen.single (by simp [edgeRel]))
  have hmAB : mutualB [(basename A.path, basename B.path),
      (basename B.path, basename A.path)] (basename A.path) (basename B.path) = true := by
    simp [mutualB, hreAB, hreBA]
  have hmAA := mutualB_self [(basename A.path, basename B.path),
      (basename B.path, basename A.path)] (basename A.path)
  have hsccA : sccOf ⟨[basename A.path, basename B.path],
      [(basename A.path, basename B.path), (basename B.path, basename A.path)]⟩
      (basename A.path) = [basename A.path, basename B.path] := by
    simp only [sccOf]
    rw [List.filter_cons_of_pos hmAA, List.filter_cons_of_pos hmAB]
    rfl
  have hsccs : sccsG ⟨[basename A.path, basename B.path],
      [(basename A.path, basename B.path), (basename B.path, basename A.path)]⟩ =
      [[basename A.path, basename B.path]] := by
    have hba : (basename B.path == basename A.path) = false :=
      beq_eq_false_iff_ne.mpr (Ne.symm hbase)
    simp [sccsG, sccsAux, hsccA, hba, List.contains_cons]
  have hfind : findCyclesG ⟨[basename A.path, basename B.path],
      [(basename A.path, basename B.path), (basename B.path, basename A.path)]⟩ =
      [[basename A.path, basename B.path]] := by
    simp only [findCyclesG, hsccs]
    rfl
  have hsev : getCycleSeverity [basename A.path, basename B.path] [A, B] =
      (if isDomainPath A.path || isDomainPath B.path
        then "CRITICAL" else "HIGH") := by
    have f1 : List.find? (fun f => basename f.path == basename A.path) [A, B] =
        some A := by
      simp only [List.find?]
      rw [show (basename A.path == basename A.path) = true from beq_self_eq_true _]
    have f2 : List.find? (fun f => basename f.path == basename B.path) [A, B] =
        some B := by
      simp only [List.find?]
      rw [show (basename A.path == basename B.path) = false from
        beq_eq_false_iff_ne.mpr hbase]
      rw [show (basename B.path == basename B.path) = true from beq_self_eq_true _]
    simp only [getCycleSeverity, List.any_cons, List.any_nil, f1, f2,
      Bool.or_false, isDomainPath]
    by_cases hd : (strIncludes (normalizeSlashes A.path) "/Domain/" ||
        strIncludes (normalizeSlashes B.path) "/Domain/") = true
    · rw [if_pos hd, if_pos hd]
    · rw [if_neg hd, if_neg hd]
      rfl
  refine ⟨⟨pp, 2, analyzeCycleDetails [[basename A.path, basename B.path]] [A, B],
    1, getUniqueFilesInCycles [[basename A.path, basename B.path]],
    (getUniqueFilesInCycles [[basename A.path, basename B.path]]).length,
    cyclesScore 1 2, getLevelLayering (cyclesScore 1 2)⟩,
    ?_, rfl, rfl, ?_, isDomainPath_iff⟩
  · simp only [analyzeCycles, hbuild, hfind]
    rfl
  · intro c hc
    simp only [analyzeCycleDetails, List.enum, List.mem_map] at hc
    obtain ⟨ic, hic, rfl⟩ := hc
    simp only [List.enumFrom] at hic
    rcases List.mem_cons.mp hic with h1 | h1
    · rw [h1]
      exact ⟨rfl, hsev⟩
    · cases h1

/-- Witness for `two_file_mutual_import_cycle` on the concrete
mutually-importing project `ex4A`/`ex4B`. -/
theorem two_file_mutual_import_cycle_witness :
    ex4A.content = some "namespace NsA;\nusing NsB;" ∧
    ex4B.content = some "namespace NsB;\nusing NsA;" ∧
    extractNamespace "namespace NsA;\nusing NsB;" = some "NsA" ∧
    extractNamespace "namespace NsB;\nusing NsA;" = some "NsB" ∧
    ("NsA" : String) ≠ "NsB" ∧
    basename ex4A.path ≠ basename ex4B.path ∧
    "NsB" ∈ extractUsingsCycles (cleanCode "namespace NsA;\nusing NsB;") ∧
    "NsA" ∈ extractUsingsCycles (cleanCode "namespace NsB;\nusing NsA;") ∧
    (∃ r, analyzeCycles "/p" [ex4A, ex4B] = Except.ok r ∧ r.cycleCount = 1 ∧
      r.cycles.length = 1 ∧
      (∀ c ∈ r.cycles, c.length = 2 ∧
        c.severity = (if isDomainPath ex4A.path || isDomainPath ex4B.path
          then "CRITICAL" else "HIGH")) ∧
      (∀ p : String, isDomainPath p = true ↔ detectLayer p = some "Domain")) :=
  ⟨rfl, rfl, rfl, rfl, by decide, by decide, by decide, by decide,
   two_file_mutual_import_cycle "/p" ex4A ex4B
     "namespace NsA;\nusing NsB;" "namespace NsB;\nusing NsA;" "NsA" "NsB"
     rfl rfl rfl rfl (by decide) (by decide) (by decide) (by decide)⟩

end MMI
